import Mathlib

/-!
Verification of the Hexahedron x86_64 virtual-memory core
(`hexahedron/arch/x86_64/mem.c`) and the allocator facade
(`hexahedron/mem/alloc.c`) against their natural-language specification.

The C sources are shallowly embedded: machine integers become `Nat` with
explicit `% 2 ^ 64` where uintptr_t overflow matters, page-table memory
becomes a total function from physical table address and entry index to a
page-entry record, and every state-mutating C function becomes a Lean
function threading an explicit `MState`.  The physical-memory window
(`mem_remapPhys`) is an identity alias of physical memory, so table reads
and writes through the window are modelled directly on the physical
address.  A fatal `kernel_panic` is modelled as an `Option` result of
`none`; `dprintf(WARN, ...)` increments a warning counter in the state.
-/

/-- Size of a small page, from `PAGE_SIZE` in the x86_64 mem.h. -/
def PAGE_SIZE : Nat := 4096

/-- Size of a PMM block (one frame), equal to the page size. -/
def PMM_BLOCK_SIZE : Nat := 4096

/-- Modulus of 64-bit unsigned arithmetic (`uintptr_t`). -/
def U64 : Nat := 2 ^ 64

/-- Default flags to the memory mapper (`MEM_DEFAULT`). -/
def MEM_DEFAULT : Nat := 0x00

/-- Flag: create missing paging structures during the walk (`MEM_CREATE`). -/
def MEM_CREATE : Nat := 0x01

/-- Flag: the page is kernel-mode only (`MEM_KERNEL`). -/
def MEM_KERNEL : Nat := 0x02

/-- Flag: the page is read-only (`MEM_READONLY`). -/
def MEM_READONLY : Nat := 0x04

/-- Flag: the page is writethrough (`MEM_WRITETHROUGH`). -/
def MEM_WRITETHROUGH : Nat := 0x08

/-- Flag: the page is not cacheable (`MEM_NOT_CACHEABLE`). -/
def MEM_NOT_CACHEABLE : Nat := 0x10

/-- Flag: the page is not present (`MEM_NOT_PRESENT`). -/
def MEM_NOT_PRESENT : Nat := 0x20

/-- Flag: do not allocate a frame for the page (`MEM_NOALLOC`). -/
def MEM_NOALLOC : Nat := 0x40

/-- Flag: free the page (`MEM_FREE_PAGE`). -/
def MEM_FREE_PAGE : Nat := 0x80

/-- Modelled from the spec: base of the permanent physical-memory window
(identity alias of all RAM, installed at PML4 slot 511 covering the top
128 GiB; the concrete value is an environment-defined constant absent from
the covered sources).  `-128 GiB` sign-extended. -/
def MEM_PHYSMEM_MAP_REGION : Nat := 0xFFFFFFE000000000

/-- Modelled from the spec: size of the physical-memory window (128 GiB). -/
def MEM_PHYSMEM_MAP_SIZE : Nat := 0x2000000000

/-- Modelled from the spec: base of the driver region (environment-defined
layout constant; any canonical page-aligned high-half value). -/
def MEM_DRIVER_REGION : Nat := 0xFFFFFF8000000000

/-- Modelled from the spec: size of the driver region. -/
def MEM_DRIVER_REGION_SIZE : Nat := 0x100000000

/-- Modelled from the spec: base of the DMA region (environment-defined
layout constant). -/
def MEM_DMA_REGION : Nat := 0xFFFFFF9000000000

/-- Modelled from the spec: size of the DMA region. -/
def MEM_DMA_REGION_SIZE : Nat := 0x100000000

/-- Modelled from the spec: base of the kernel heap region (PML4 slot 510). -/
def MEM_HEAP_REGION : Nat := 0xFFFFFF0000000000

/-- Align an address to the next page, from the x86_64 mem.h macro
`MEM_ALIGN_PAGE(addr) ((addr + PAGE_SIZE) & ~0xFFF)`; the addition wraps at
64 bits, and masking with `~0xFFF` clears the low 12 bits. -/
def MEM_ALIGN_PAGE (addr : Nat) : Nat := (addr + PAGE_SIZE) % U64 / 4096 * 4096

/-- Modelled from the spec: a virtual address is canonical iff bits 63:48
all equal bit 47, i.e. the address shifted right by 47 is all-zeros or
all-ones (the macro `MEM_IS_CANONICAL` is absent from the covered headers). -/
def MEM_IS_CANONICAL (va : Nat) : Bool := va / 2 ^ 47 == 0 || va / 2 ^ 47 == 0x1FFFF

/-- Modelled from the spec: PML4 index of a virtual address (bits 47:39). -/
def MEM_PML4_INDEX (va : Nat) : Nat := va / 2 ^ 39 % 512

/-- Modelled from the spec: PDPT index of a virtual address (bits 38:30). -/
def MEM_PDPT_INDEX (va : Nat) : Nat := va / 2 ^ 30 % 512

/-- Modelled from the spec: page-directory index of a virtual address
(bits 29:21). -/
def MEM_PAGEDIR_INDEX (va : Nat) : Nat := va / 2 ^ 21 % 512

/-- Modelled from the spec: page-table index of a virtual address
(bits 20:12). -/
def MEM_PAGETBL_INDEX (va : Nat) : Nat := va / 2 ^ 12 % 512

/-- A page-table entry: the bitfields of `page_t` that the walker reads and
writes (`present`, `rw`, `usermode`, `writethrough`, `cache_disable`,
`size`, and the 40-bit frame-number field `address`). -/
structure page_bits where
  present : Bool
  rw : Bool
  usermode : Bool
  writethrough : Bool
  cache_disable : Bool
  size : Bool
  address : Nat
deriving DecidableEq, Repr

/-- The all-zero page entry (a freshly memset table slot). -/
def zeroPage : page_bits :=
  { present := false, rw := false, usermode := false, writethrough := false,
    cache_disable := false, size := false, address := 0 }

/-- The macro `MEM_GET_FRAME`: physical frame address of an entry
(`address` field shifted left by 12). -/
def MEM_GET_FRAME (e : page_bits) : Nat := e.address * 4096

/-- State of the memory core: physical memory viewed through the window as
page tables (`mem t i` is entry `i` of the table at physical address `t`),
the PFA bump source of fresh blocks, the list of blocks returned to the
PFA, the per-CPU current directory, the three region cursors, and a
counter of `dprintf(WARN, ...)` emissions. -/
structure MState where
  mem : Nat → Nat → page_bits
  nextBlock : Nat
  freed : List Nat
  cdir : Nat
  dmaRegion : Nat
  driverRegion : Nat
  kernelHeap : Nat
  warns : Nat

/-- Write one page-table entry at table `t`, index `i`. -/
def writePage (s : MState) (t i : Nat) (e : page_bits) : MState :=
  { s with mem := fun t' i' => if t' = t ∧ i' = i then e else s.mem t' i' }

/-- The `memset(block_remap, 0, PMM_BLOCK_SIZE)` of a fresh table: zero
every entry of the table at physical address `t`. -/
def zeroTable (s : MState) (t : Nat) : MState :=
  { s with mem := fun t' i' => if t' = t then zeroPage else s.mem t' i' }

/-- A `dprintf(WARN, ...)` emission. -/
def warn (s : MState) : MState := { s with warns := s.warns + 1 }

/-- Modelled from the spec: `pmm_allocateBlock` (the PFA source file is not
among the covered sources).  The PFA hands out a frame that was free
immediately before; we model it as a bump source of fresh frames. -/
def pmm_allocateBlock (s : MState) : Nat × MState :=
  (s.nextBlock, { s with nextBlock := s.nextBlock + PMM_BLOCK_SIZE })

/-- Modelled from the spec: `pmm_freeBlock` clears the frame's bitmap bit;
we record the returned frame. -/
def pmm_freeBlock (s : MState) (frame : Nat) : MState :=
  { s with freed := frame :: s.freed }

/-- The C `!` operator on an integer flag word. -/
def cnot (n : Nat) : Nat := if n = 0 then 1 else 0

/-- Remap a physical address into the identity-mapped window
(`mem_remapPhys`): fatal (`none`) when the size exceeds the window,
otherwise `frame_address | MEM_PHYSMEM_MAP_REGION`. -/
def mem_remapPhys (frame_address size : Nat) : Option Nat :=
  if MEM_PHYSMEM_MAP_SIZE < size then none
  else some (Nat.lor frame_address MEM_PHYSMEM_MAP_REGION)

/-- Unmap a window address (`mem_unmapPhys`): no caching system is in
place, no unmapping — the state is returned unchanged. -/
def mem_unmapPhys (s : MState) (_frame_address _size : Nat) : MState := s

/-- One interior level of `mem_getPage`: the `if (!entry->bits.present)`
block.  If the entry is absent the walker either bails out (the C source
tests `!flags & MEM_CREATE`, which misbinds to `(!flags) & MEM_CREATE` —
kept exactly as written) or allocates a fresh PMM block, zeroes it through
the window, and links it `present|rw|usermode`, storing `block >> 12` in
the 40-bit frame field.  Returns the entry to descend through and the
updated state, or `none` for `goto bad_page`. -/
def walkEnsure (s : MState) (t i flags : Nat) : Option (page_bits × MState) :=
  let e := s.mem t i
  if e.present = false then
    if cnot flags &&& MEM_CREATE ≠ 0 then none
    else
      let p := pmm_allocateBlock s
      let s2 := zeroTable p.2 p.1
      let e2 :=
        { (s2.mem t i) with
          present := true, rw := true, usermode := true,
          address := p.1 / 4096 % 2 ^ 40 }
      some (e2, writePage s2 t i e2)
  else
    some (e, s)

/-- Alignment performed at the top of `mem_getPage`:
`(address % PAGE_SIZE != 0) ? MEM_ALIGN_PAGE(address) : address`. -/
def alignOf (address : Nat) : Nat :=
  if address % PAGE_SIZE ≠ 0 then MEM_ALIGN_PAGE address else address

/-- Body of `mem_getPage` after the canonical check and alignment: the
four-level walk.  `dir = none` selects the current directory.  Descending
into a PDPT or PD entry whose `size` bit is set logs a warning and returns
absent. -/
def mem_getPageAligned (s : MState) (dir : Option Nat) (addr flags : Nat) :
    Option (Nat × Nat) × MState :=
  let directory := dir.getD s.cdir
  match walkEnsure s directory (MEM_PML4_INDEX addr) flags with
  | none => (none, s)
  | some (pml4e, s1) =>
    match walkEnsure s1 (MEM_GET_FRAME pml4e) (MEM_PDPT_INDEX addr) flags with
    | none => (none, s1)
    | some (pdpte, s2) =>
      if pdpte.size = true then (none, warn s2)
      else
        match walkEnsure s2 (MEM_GET_FRAME pdpte) (MEM_PAGEDIR_INDEX addr) flags with
        | none => (none, s2)
        | some (pde, s3) =>
          if pde.size = true then (none, warn s3)
          else (some (MEM_GET_FRAME pde, MEM_PAGETBL_INDEX addr), s3)

/-- Returns the page entry requested (`mem_getPage`): rejects non-canonical
addresses, aligns the address, and walks PML4 → PDPT → PD → PT.  The
result is the location (leaf table physical address, entry index) of the
PTE, or `none` for NULL. -/
def mem_getPage (s : MState) (dir : Option Nat) (address flags : Nat) :
    Option (Nat × Nat) × MState :=
  if MEM_IS_CANONICAL address = false then (none, s)
  else mem_getPageAligned s dir (alignOf address) flags

/-- Free a page (`mem_freePage`): clear `present|rw|usermode`, return the
frame to the PFA, zero the frame field.  A NULL page is ignored. -/
def mem_freePage (s : MState) (page : Option (Nat × Nat)) : MState :=
  match page with
  | none => s
  | some (t, i) =>
    let e := s.mem t i
    let s1 := writePage s t i { e with present := false, rw := false, usermode := false }
    let s2 := pmm_freeBlock s1 (MEM_GET_FRAME (s1.mem t i))
    writePage s2 t i { (s2.mem t i) with address := 0 }

/-- Allocate a page (`mem_allocatePage`): dispatch `MEM_FREE_PAGE` to
`mem_freePage`; obtain a PMM frame when the entry has none and
`MEM_NOALLOC` is absent; then configure the five policy bits from the
flags.  A NULL page is ignored. -/
def mem_allocatePage (s : MState) (page : Option (Nat × Nat)) (flags : Nat) : MState :=
  match page with
  | none => s
  | some (t, i) =>
    if flags &&& MEM_FREE_PAGE ≠ 0 then mem_freePage s (some (t, i))
    else
      let s1 :=
        if (s.mem t i).address = 0 ∧ flags &&& MEM_NOALLOC = 0 then
          let p := pmm_allocateBlock s
          writePage p.2 t i { (p.2.mem t i) with address := p.1 / 4096 % 2 ^ 40 }
        else s
      writePage s1 t i
        { (s1.mem t i) with
          present := flags &&& MEM_NOT_PRESENT == 0,
          rw := flags &&& MEM_READONLY == 0,
          usermode := flags &&& MEM_KERNEL == 0,
          writethrough := !(flags &&& MEM_WRITETHROUGH == 0),
          cache_disable := !(flags &&& MEM_NOT_CACHEABLE == 0) }

/-- Map a physical address to a virtual address (`mem_mapAddress`):
reject non-canonical addresses, look up the PTE with `MEM_CREATE`, then
`mem_allocatePage(pg, MEM_NOALLOC)` and `MEM_SET_FRAME(pg, phys)`. -/
def mem_mapAddress (s : MState) (dir : Option Nat) (phys virt : Nat) : MState :=
  if MEM_IS_CANONICAL virt = false then s
  else
    match mem_getPage s dir virt MEM_CREATE with
    | (none, s1) => s1
    | (some (t, i), s1) =>
      let s2 := mem_allocatePage s1 (some (t, i)) MEM_NOALLOC
      writePage s2 t i { (s2.mem t i) with address := phys / 4096 % 2 ^ 40 }

/-- Get the physical address of a virtual address
(`mem_getPhysicalAddress`): 0 for non-canonical addresses; otherwise keep
the low 12 bits as an offset, align the address down, walk with
`MEM_DEFAULT`, and add the offset to the frame. -/
def mem_getPhysicalAddress (s : MState) (dir : Option Nat) (virtaddr : Nat) :
    Nat × MState :=
  if MEM_IS_CANONICAL virtaddr = false then (0, s)
  else
    let offset := if virtaddr % 4096 ≠ 0 then virtaddr % 4096 else 0
    let v := if virtaddr % 4096 ≠ 0 then virtaddr / 4096 * 4096 else virtaddr
    match mem_getPage s dir v MEM_DEFAULT with
    | (none, s1) => (0, s1)
    | (some (t, i), s1) => (MEM_GET_FRAME (s1.mem t i) + offset, s1)

/-- Size alignment at the top of the region allocators:
`if (size % PAGE_SIZE != 0) size = MEM_ALIGN_PAGE(size);`. -/
def alignedSize (size : Nat) : Nat :=
  if size % PAGE_SIZE ≠ 0 then MEM_ALIGN_PAGE size else size

/-- 64-bit unsigned subtraction (`a - b` on `uintptr_t`). -/
def usub (a b : Nat) : Nat := (a + (U64 - b % U64)) % U64

/-- Iteration count of the region loops
`for (i = cursor; i < cursor + size; i += PAGE_SIZE)` under 64-bit
arithmetic: if `cursor + size` wraps, the loop body never runs. -/
def pageCount (cursor size : Nat) : Nat :=
  if cursor + size < U64 then size / PAGE_SIZE else 0

/-- The region-allocation loop body, iterated: walk each page with
`MEM_CREATE` and, when the walk returns a PTE, allocate it with the
region's page flags. -/
def mapRange (s : MState) (start count pageflags : Nat) : MState :=
  match count with
  | 0 => s
  | n + 1 =>
    let r := mem_getPage s none start MEM_CREATE
    let s2 := mem_allocatePage r.2 r.1 pageflags
    mapRange s2 (start + PAGE_SIZE) n pageflags

/-- The region-free loop body, iterated: walk each page with `MEM_DEFAULT`
and, when the walk returns a PTE, free it. -/
def freeRange (s : MState) (start count : Nat) : MState :=
  match count with
  | 0 => s
  | n + 1 =>
    let r := mem_getPage s none start MEM_DEFAULT
    let s2 := mem_freePage r.2 r.1
    freeRange s2 (start + PAGE_SIZE) n

/-- Allocate a DMA region (`mem_allocateDMA`): align the size, stop
fatally (`none`) when the cursor would exceed the region limit, otherwise
map every page kernel-mode and uncacheable, advance the cursor, and return
the old cursor. -/
def mem_allocateDMA (s : MState) (size : Nat) : Option (Nat × MState) :=
  let size1 := alignedSize size
  if MEM_DMA_REGION + MEM_DMA_REGION_SIZE < (s.dmaRegion + size1) % U64 then none
  else
    let s1 := mapRange s s.dmaRegion (pageCount s.dmaRegion size1)
      (MEM_KERNEL ||| MEM_NOT_CACHEABLE)
    let s2 := { s1 with dmaRegion := (s1.dmaRegion + size1) % U64 }
    some (usub s2.dmaRegion size1, s2)

/-- Unallocate a DMA region (`mem_freeDMA`): ignore NULL base or zero
size; if the base matches the last region mapped, retract the cursor and
free each page; otherwise log a warning and change nothing. -/
def mem_freeDMA (s : MState) (base size : Nat) : MState :=
  if base = 0 ∨ size = 0 then s
  else
    let size1 := alignedSize size
    if base = usub s.dmaRegion size1 then
      let s1 := { s with dmaRegion := usub s.dmaRegion size1 }
      freeRange s1 s1.dmaRegion (pageCount s1.dmaRegion size1)
    else warn s

/-- Map a driver into memory (`mem_mapDriver`): align the size, stop
fatally when the cursor would exceed the region limit, otherwise map every
page kernel-mode, advance the cursor, and return the old cursor. -/
def mem_mapDriver (s : MState) (size : Nat) : Option (Nat × MState) :=
  let size1 := alignedSize size
  if MEM_DRIVER_REGION + MEM_DRIVER_REGION_SIZE < (s.driverRegion + size1) % U64 then none
  else
    let s1 := mapRange s s.driverRegion (pageCount s.driverRegion size1) MEM_KERNEL
    let s2 := { s1 with driverRegion := (s1.driverRegion + size1) % U64 }
    some (usub s2.driverRegion size1, s2)

/-- Unmap a driver (`mem_unmapDriver`): if the base matches the last
driver mapped, retract the cursor and free each page; otherwise log a
warning and change nothing.  Unlike `mem_freeDMA` there is no NULL/zero
guard. -/
def mem_unmapDriver (s : MState) (base size : Nat) : MState :=
  let size1 := alignedSize size
  if base = usub s.driverRegion size1 then
    let s1 := { s with driverRegion := usub s.driverRegion size1 }
    freeRange s1 s1.driverRegion (pageCount s1.driverRegion size1)
  else warn s

/-- The descending loop of a negative `mem_sbrk`:
`for (i = heap; i >= heap + b; i -= 0x1000) mem_freePage(mem_getPage(NULL, i, 0));`. -/
def freeRangeDown (s : MState) (start count : Nat) : MState :=
  match count with
  | 0 => s
  | n + 1 =>
    let r := mem_getPage s none start MEM_DEFAULT
    let s2 := mem_freePage r.2 r.1
    freeRangeDown s2 (start - PAGE_SIZE) n

/-- The ascending loop of a positive `mem_sbrk`: pages whose PTE already
exists and is present are skipped with a warning; the rest are walked with
`MEM_CREATE` and allocated `MEM_KERNEL`. -/
def sbrkGrow (s : MState) (start count : Nat) : MState :=
  match count with
  | 0 => s
  | n + 1 =>
    let r := mem_getPage s none start MEM_DEFAULT
    match r.1 with
    | some (t, i) =>
      if (r.2.mem t i).present = true then
        sbrkGrow (warn r.2) (start + PAGE_SIZE) n
      else
        let r2 := mem_getPage r.2 none start MEM_CREATE
        let s3 := mem_allocatePage r2.2 r2.1 MEM_KERNEL
        sbrkGrow s3 (start + PAGE_SIZE) n
    | none =>
      let r2 := mem_getPage r.2 none start MEM_CREATE
      let s3 := mem_allocatePage r2.2 r2.1 MEM_KERNEL
      sbrkGrow s3 (start + PAGE_SIZE) n

/-- Expand or shrink the kernel heap (`mem_sbrk`).  Fatal (`none`) when
the heap is not ready or the byte count is not a page multiple; `b = 0`
returns the cursor.  Negative `b` walks from the old cursor down to
`old + b` inclusive freeing pages; positive `b` maps `[old, old + b)`
skipping already-present pages.  Returns the old cursor. -/
def mem_sbrk (s : MState) (b : Int) : Option (Nat × MState) :=
  if s.kernelHeap = 0 then none
  else if b = 0 then some (s.kernelHeap, s)
  else if b % (PAGE_SIZE : Int) ≠ 0 then none
  else if b < 0 then
    let down := (-b).toNat
    let count := if down ≤ s.kernelHeap then down / PAGE_SIZE + 1 else 0
    let s1 := freeRangeDown s s.kernelHeap count
    some (s.kernelHeap, { s1 with kernelHeap := usub s1.kernelHeap down })
  else
    let up := b.toNat
    let s0 := if MEM_PHYSMEM_MAP_REGION < (s.kernelHeap + up) % U64 then warn s else s
    let s1 := sbrkGrow s0 s.kernelHeap (pageCount s.kernelHeap up)
    some (s.kernelHeap, { s1 with kernelHeap := (s.kernelHeap + up) % U64 })

/-- A state with an empty directory at physical address 0, an all-zero
physical memory, fresh blocks starting at 0x1000, and the three region
cursors at their region bases. -/
def freshState : MState :=
  { mem := fun _ _ => zeroPage, nextBlock := 0x1000, freed := [], cdir := 0,
    dmaRegion := MEM_DMA_REGION, driverRegion := MEM_DRIVER_REGION,
    kernelHeap := MEM_HEAP_REGION, warns := 0 }

/-- Modelled from the spec: the errno code `ENOTSUP` (value is an
environment-defined constant). -/
def ENOTSUP : Int := 134

/-- Modelled from the spec: the errno code `EINPROGRESS` (value is an
environment-defined constant). -/
def EINPROGRESS : Int := 119

/-- The accumulated profile of the allocator facade (`profile_info_t`). -/
structure profile_info where
  requests : Nat
  bytes_allocated : Nat
  most_bytes_allocated : Nat
  least_bytes_allocated : Nat
  time_start : Nat
  time_end : Nat
deriving DecidableEq, Repr

/-- State of the allocator facade: the backing allocator's fixed
profiling-capability bit (`alloc_getInfo()->support_profile`), the current
profiling data (`profile_data`, NULL when inactive), and a clock for
`now()`. -/
structure AllocState where
  supportProfile : Bool
  profileData : Option profile_info
  clock : Nat
deriving DecidableEq, Repr

/-- Start profiling (`alloc_startProfiling`): `-ENOTSUP` when the backing
allocator does not support profiling; when already active, `-ENOTSUP`
with the force flag (no spinlock support) and `-EINPROGRESS` without it;
otherwise allocate a zeroed profile with `least_bytes_allocated =
UINT32_MAX` and the start time, and return 0. -/
def alloc_startProfiling (s : AllocState) (force_begin_profiling : Nat) :
    Int × AllocState :=
  if s.supportProfile = false then (-ENOTSUP, s)
  else
    match s.profileData with
    | some _ =>
      if force_begin_profiling ≠ 0 then (-ENOTSUP, s) else (-EINPROGRESS, s)
    | none =>
      let p : profile_info :=
        { requests := 0, bytes_allocated := 0, most_bytes_allocated := 0,
          least_bytes_allocated := 0xFFFFFFFF, time_start := s.clock,
          time_end := 0 }
      (0, { s with profileData := some p })

/-- Stop profiling (`alloc_stopProfiling`): NULL when profiling was never
started; otherwise set the end time, clear the profiling pointer, and
return the accumulated structure. -/
def alloc_stopProfiling (s : AllocState) : Option profile_info × AllocState :=
  match s.profileData with
  | none => (none, s)
  | some p =>
    (some { p with time_end := s.clock }, { s with profileData := none })

/-! ## Helper states for witnesses and counterexamples -/

/-- A demonstration state whose PML4 slot 0 points at a PDPT whose entry 0
is a present 1 GiB large page (`size = 1`). -/
def largePDPTState : MState :=
  { freshState with mem := fun t i =>
      if t = 0 ∧ i = 0 then { zeroPage with present := true, address := 1 }
      else if t = 4096 ∧ i = 0 then { zeroPage with present := true, size := true }
      else zeroPage }

/-- A demonstration state whose PML4 slot 0 and PDPT entry 0 are normal
interior links and whose PD entry 0 is a present 2 MiB large page. -/
def largePDState : MState :=
  { freshState with mem := fun t i =>
      if t = 0 ∧ i = 0 then { zeroPage with present := true, address := 1 }
      else if t = 4096 ∧ i = 0 then { zeroPage with present := true, address := 2 }
      else if t = 8192 ∧ i = 0 then { zeroPage with present := true, size := true }
      else zeroPage }

/-! ## C1 -/

/-- C1: for every non-canonical virtual address, `mem_getPage` returns
NULL for all flag values and leaves the state (hence every page-table
entry) unchanged; under the same precondition `mem_mapAddress` returns
without mutating anything and `mem_getPhysicalAddress` returns 0. -/
theorem c1_noncanonical_rejected (s : MState) (dir : Option Nat)
    (va phys flags : Nat) (h : MEM_IS_CANONICAL va = false) :
    mem_getPage s dir va flags = (none, s) ∧
    mem_mapAddress s dir phys va = s ∧
    mem_getPhysicalAddress s dir va = (0, s) := by
  refine ⟨?_, ?_, ?_⟩ <;>
    simp [mem_getPage, mem_mapAddress, mem_getPhysicalAddress, h]

/-- Witness for C1 at the smallest non-canonical address. -/
theorem c1_noncanonical_rejected_witness :
    MEM_IS_CANONICAL 0x0000800000000000 = false ∧
    mem_getPage freshState (some 0) 0x0000800000000000 5 = (none, freshState) ∧
    mem_mapAddress freshState (some 0) 0x2000 0x0000800000000000 = freshState ∧
    mem_getPhysicalAddress freshState (some 0) 0x0000800000000000 =
      (0, freshState) := by
  have h : MEM_IS_CANONICAL 0x0000800000000000 = false := by decide
  have h2 := c1_noncanonical_rejected freshState (some 0) 0x0000800000000000
    0x2000 5 h
  exact ⟨h, h2.1, h2.2.1, h2.2.2⟩

/-! ## C2 -/

/-- C2 (code bug): the walker tests `!flags & MEM_CREATE`, which by C
precedence is `(!flags) & MEM_CREATE`.  With `flags = MEM_KERNEL` — a
nonzero flag word that does not contain `MEM_CREATE` — and a canonical
address whose PML4 entry is absent, the lookup therefore allocates interior
tables and returns a PTE instead of returning NULL and allocating nothing,
contradicting the claim. -/
theorem c2_create_misparse_eval :
    MEM_KERNEL &&& MEM_CREATE = 0 ∧
    (freshState.mem 0 (MEM_PML4_INDEX 0)).present = false ∧
    (mem_getPage freshState (some 0) 0 MEM_KERNEL).1.isSome = true ∧
    ((mem_getPage freshState (some 0) 0 MEM_KERNEL).2.mem 0
      (MEM_PML4_INDEX 0)).present = true ∧
    (mem_getPage freshState (some 0) 0 MEM_KERNEL).2.nextBlock ≠
      freshState.nextBlock := by
  refine ⟨by decide, by decide, by decide, by decide, by decide⟩

/-! ## C5 -/

/-- A heap state for exercising `mem_sbrk`: the heap cursor is at
`MEM_HEAP_REGION + 0x10000`, the page at the cursor itself is mapped (it
is outside the heap interval) and so is the page just below the cursor. -/
def sbrkDemoState : MState :=
  mem_mapAddress
    (mem_mapAddress { freshState with kernelHeap := MEM_HEAP_REGION + 0x10000 }
      none 0x5000 (MEM_HEAP_REGION + 0x10000))
    none 0x6000 (MEM_HEAP_REGION + 0xF000)

/-- C5 (code bug): the retraction loop
`for (i = heap; i >= heap + b; i -= 0x1000)` starts at the old cursor and
is inclusive, so `mem_sbrk(-4096)` frees the page at the old cursor — a
page outside `[old + b, old)` — in addition to the claimed interval.  Here
the PTE at the old cursor is present beforehand and not present
afterwards, while the claim says no page outside `[old - 4096, old)` is
touched. -/
theorem c5_sbrk_frees_extra_page_eval :
    ((mem_getPage sbrkDemoState none (MEM_HEAP_REGION + 0x10000)
        MEM_DEFAULT).1.map
      (fun l => (sbrkDemoState.mem l.1 l.2).present)) = some true ∧
    ((mem_sbrk sbrkDemoState (-4096)).map Prod.fst) =
      some (MEM_HEAP_REGION + 0x10000) ∧
    ((mem_sbrk sbrkDemoState (-4096)).map (fun r => r.2.kernelHeap)) =
      some (MEM_HEAP_REGION + 0xF000) ∧
    ((mem_sbrk sbrkDemoState (-4096)).map (fun r =>
      (mem_getPage r.2 none (MEM_HEAP_REGION + 0x10000) MEM_DEFAULT).1.map
        (fun l => (r.2.mem l.1 l.2).present))) = some (some false) ∧
    ((mem_sbrk sbrkDemoState (-4096)).map (fun r =>
      (mem_getPage r.2 none (MEM_HEAP_REGION + 0xF000) MEM_DEFAULT).1.map
        (fun l => (r.2.mem l.1 l.2).present))) = some (some false) := by
  refine ⟨by decide, by decide, by decide, by decide, by decide⟩

/-! ## C7 -/

/-- C7: for every canonical virtual address and every flag value, when the
PDPT entry reached by the walk has its `size` bit set, or the PD entry
reached by the walk has its `size` bit set, `mem_getPage` logs a warning
and returns NULL instead of descending. -/
theorem c7_large_page_guard (s : MState) (dir : Option Nat) (va flags : Nat)
    (hca : MEM_IS_CANONICAL va = true) :
    (∀ e1 s1 e2 s2,
      walkEnsure s (dir.getD s.cdir) (MEM_PML4_INDEX (alignOf va)) flags =
        some (e1, s1) →
      walkEnsure s1 (MEM_GET_FRAME e1) (MEM_PDPT_INDEX (alignOf va)) flags =
        some (e2, s2) →
      e2.size = true →
      mem_getPage s dir va flags = (none, warn s2)) ∧
    (∀ e1 s1 e2 s2 e3 s3,
      walkEnsure s (dir.getD s.cdir) (MEM_PML4_INDEX (alignOf va)) flags =
        some (e1, s1) →
      walkEnsure s1 (MEM_GET_FRAME e1) (MEM_PDPT_INDEX (alignOf va)) flags =
        some (e2, s2) →
      e2.size = false →
      walkEnsure s2 (MEM_GET_FRAME e2) (MEM_PAGEDIR_INDEX (alignOf va)) flags =
        some (e3, s3) →
      e3.size = true →
      mem_getPage s dir va flags = (none, warn s3)) := by
  constructor
  · intro e1 s1 e2 s2 h1 h2 h3
    simp [mem_getPage, hca, mem_getPageAligned, h1, h2, h3]
  · intro e1 s1 e2 s2 e3 s3 h1 h2 h3 h4 h5
    simp [mem_getPage, hca, mem_getPageAligned, h1, h2, h3, h4, h5]

/-- Witness for C7: the large-PDPT and large-PD demonstration states. -/
theorem c7_large_page_guard_witness :
    (MEM_IS_CANONICAL 0 = true ∧
      mem_getPage largePDPTState (some 0) 0 7 = (none, warn largePDPTState)) ∧
    (mem_getPage largePDState (some 0) 0 7 = (none, warn largePDState)) := by
  have hca : MEM_IS_CANONICAL 0 = true := by decide
  refine ⟨⟨hca, ?_⟩, ?_⟩
  · exact (c7_large_page_guard largePDPTState (some 0) 0 7 hca).1
      ({ zeroPage with present := true, address := 1 }) largePDPTState
      ({ zeroPage with present := true, size := true }) largePDPTState
      rfl rfl rfl
  · exact (c7_large_page_guard largePDState (some 0) 0 7 hca).2
      ({ zeroPage with present := true, address := 1 }) largePDState
      ({ zeroPage with present := true, address := 2 }) largePDState
      ({ zeroPage with present := true, size := true }) largePDState
      rfl rfl rfl rfl rfl

/-! ## C8 -/

/-- C8: `mem_remapPhys(phys, len)` returns `phys | MEM_PHYSMEM_MAP_REGION`
whenever `len ≤ MEM_PHYSMEM_MAP_SIZE` and stops fatally otherwise, and
`mem_unmapPhys` changes no state for every input. -/
theorem c8_physmem_window (phys len : Nat) (s : MState) (fa sz : Nat) :
    (len ≤ MEM_PHYSMEM_MAP_SIZE →
      mem_remapPhys phys len = some (Nat.lor phys MEM_PHYSMEM_MAP_REGION)) ∧
    (MEM_PHYSMEM_MAP_SIZE < len → mem_remapPhys phys len = none) ∧
    mem_unmapPhys s fa sz = s := by
  refine ⟨fun h => ?_, fun h => ?_, rfl⟩
  · simp [mem_remapPhys, Nat.not_lt.mpr h]
  · simp [mem_remapPhys, h]

/-- Witness for C8 at a concrete in-range and out-of-range length. -/
theorem c8_physmem_window_witness :
    (0x1000 ≤ MEM_PHYSMEM_MAP_SIZE ∧
      mem_remapPhys 0x2000 0x1000 =
        some (Nat.lor 0x2000 MEM_PHYSMEM_MAP_REGION)) ∧
    (MEM_PHYSMEM_MAP_SIZE < 0x2000000001 ∧
      mem_remapPhys 0x2000 0x2000000001 = none) ∧
    mem_unmapPhys freshState 0x2000 0x1000 = freshState := by
  have h1 : (0x1000 : Nat) ≤ MEM_PHYSMEM_MAP_SIZE := by decide
  have h2 : MEM_PHYSMEM_MAP_SIZE < 0x2000000001 := by decide
  have h := c8_physmem_window 0x2000 0x1000 freshState 0x2000 0x1000
  have h' := c8_physmem_window 0x2000 0x2000000001 freshState 0x2000 0x1000
  exact ⟨⟨h1, h.1 h1⟩, ⟨h2, h'.2.1 h2⟩, h.2.2⟩


/-- A facade state whose backing allocator supports profiling and is idle. -/
def supAlloc : AllocState :=
  { supportProfile := true, profileData := none, clock := 7 }

/-- A facade state whose backing allocator does not support profiling. -/
def unsupAlloc : AllocState :=
  { supportProfile := false, profileData := none, clock := 7 }

/-- A demonstration profile structure. -/
def demoProfile : profile_info :=
  { requests := 3, bytes_allocated := 64, most_bytes_allocated := 32,
    least_bytes_allocated := 8, time_start := 1, time_end := 0 }

/-- A facade state in which profiling is active. -/
def activeAlloc : AllocState :=
  { supportProfile := true, profileData := some demoProfile, clock := 9 }

/-! ## C9 -/


/-- C9: profiling is single-shot — after a successful
`alloc_startProfiling`, a second call without the force flag returns
`-EINPROGRESS`; when the backing allocator does not support profiling,
`alloc_startProfiling` returns `-ENOTSUP`; and `alloc_stopProfiling`
returns the accumulated profile structure when profiling is active and
NULL when it was never started. -/
theorem c9_profiling_single_shot (s : AllocState) (p : profile_info)
    (force : Nat) :
    ((alloc_startProfiling s force).1 = 0 →
      (alloc_startProfiling (alloc_startProfiling s force).2 0).1 =
        -EINPROGRESS) ∧
    (s.supportProfile = false → (alloc_startProfiling s force).1 = -ENOTSUP) ∧
    (s.profileData = some p →
      (alloc_stopProfiling s).1 = some { p with time_end := s.clock }) ∧
    (s.profileData = none → (alloc_stopProfiling s).1 = none) := by
  refine ⟨fun h0 => ?_, fun hn => ?_, fun hp => ?_, fun hn => ?_⟩
  · by_cases hs : s.supportProfile = false
    · simp [alloc_startProfiling, hs, ENOTSUP] at h0
    · rcases hpd : s.profileData with _ | q
      · simp [alloc_startProfiling, hs, hpd]
      · by_cases hf : force = 0 <;>
          simp [alloc_startProfiling, hs, hpd, hf, ENOTSUP, EINPROGRESS] at h0
  · simp [alloc_startProfiling, hn]
  · simp [alloc_stopProfiling, hp]
  · simp [alloc_stopProfiling, hn]

/-- Witness for C9 at concrete facade states: a supporting allocator that
is started twice, an unsupporting allocator, and the two stop cases. -/
theorem c9_profiling_single_shot_witness :
    ((alloc_startProfiling supAlloc 0).1 = 0 ∧
      (alloc_startProfiling (alloc_startProfiling supAlloc 0).2 0).1 =
        -EINPROGRESS) ∧
    (unsupAlloc.supportProfile = false ∧
      (alloc_startProfiling unsupAlloc 0).1 = -ENOTSUP) ∧
    (activeAlloc.profileData = some demoProfile ∧
      (alloc_stopProfiling activeAlloc).1 =
        some { demoProfile with time_end := activeAlloc.clock }) ∧
    (supAlloc.profileData = none ∧ (alloc_stopProfiling supAlloc).1 = none) := by
  have h1 := c9_profiling_single_shot supAlloc demoProfile 0
  have h2 := c9_profiling_single_shot unsupAlloc demoProfile 0
  have h3 := c9_profiling_single_shot activeAlloc demoProfile 0
  exact ⟨⟨by decide, h1.1 (by decide)⟩, ⟨rfl, h2.2.1 rfl⟩,
    ⟨rfl, h3.2.2.1 rfl⟩, ⟨rfl, h1.2.2.2 rfl⟩⟩

/-! ## C10 -/

/-- C10: for every canonical virtual address `a` that is not page-aligned,
`mem_getPage` resolves the page-table entry of the next page boundary
above `a` — the walk it performs is the walk for `(a + 4096) & ~0xFFF`
(64-bit wrapping addition), which differs from the page containing `a`;
page-aligned addresses resolve their own page's entry. -/
theorem c10_align_up (s : MState) (dir : Option Nat) (a flags : Nat)
    (hca : MEM_IS_CANONICAL a = true) (ha : a < U64) :
    (a % PAGE_SIZE ≠ 0 →
      mem_getPage s dir a flags =
        mem_getPageAligned s dir ((a + 4096) % U64 / 4096 * 4096) flags ∧
      (a + 4096) % U64 / 4096 * 4096 ≠ a / 4096 * 4096) ∧
    (a % PAGE_SIZE = 0 →
      mem_getPage s dir a flags = mem_getPageAligned s dir a flags) := by
  have hU : U64 = 18446744073709551616 := rfl
  have hP : PAGE_SIZE = 4096 := rfl
  constructor
  · intro hu
    rw [hP] at hu
    constructor
    · rw [mem_getPage, hca]
      simp [alignOf, MEM_ALIGN_PAGE, PAGE_SIZE, hu]
    · rw [hU] at ha ⊢
      by_cases hw : a + 4096 < 18446744073709551616
      · have h1 : (a + 4096) % 18446744073709551616 = a + 4096 :=
          Nat.mod_eq_of_lt hw
        have h2 : (a + 4096) / 4096 = a / 4096 + 1 := by omega
        rw [h1, h2]
        omega
      · have h1 : (a + 4096) % 18446744073709551616 =
            a + 4096 - 18446744073709551616 := by omega
        have h3 : (a + 4096 - 18446744073709551616) / 4096 = 0 := by omega
        rw [h1, h3]
        have h5 : (18446744073709551616 - 4096) / 4096 ≤ a / 4096 :=
          Nat.div_le_div_right (by omega)
        have h6 : (18446744073709551616 - 4096) / 4096 = 2 ^ 52 - 1 := by
          norm_num
        omega
  · intro hal
    rw [hP] at hal
    rw [mem_getPage, hca]
    simp [alignOf, PAGE_SIZE, hal]

/-- Witness for C10 at an unaligned and an aligned canonical address. -/
theorem c10_align_up_witness :
    (MEM_IS_CANONICAL 0xCAFE0001 = true ∧ 0xCAFE0001 % PAGE_SIZE ≠ 0 ∧
      mem_getPage freshState (some 0) 0xCAFE0001 0 =
        mem_getPageAligned freshState (some 0)
          ((0xCAFE0001 + 4096) % U64 / 4096 * 4096) 0 ∧
      (0xCAFE0001 + 4096) % U64 / 4096 * 4096 ≠
        0xCAFE0001 / 4096 * 4096) ∧
    (0xCAFE0000 % PAGE_SIZE = 0 ∧
      mem_getPage freshState (some 0) 0xCAFE0000 0 =
        mem_getPageAligned freshState (some 0) 0xCAFE0000 0) := by
  have hca : MEM_IS_CANONICAL 0xCAFE0001 = true := by decide
  have hca2 : MEM_IS_CANONICAL 0xCAFE0000 = true := by decide
  have h1 := (c10_align_up freshState (some 0) 0xCAFE0001 0 hca
    (by decide)).1 (by decide)
  have h2 := (c10_align_up freshState (some 0) 0xCAFE0000 0 hca2
    (by decide)).2 (by decide)
  exact ⟨⟨hca, by decide, h1.1, h1.2⟩, ⟨by decide, h2⟩⟩

/-! ## C3 counterexample -/

/-- C3 is false as stated: it quantifies over every pair `(phys, va)` with
`va` canonical, but for the unaligned address `va = 0xCAFE0001` the map
goes to the next page boundary above `va` while the translation walks the
page containing `va`, so after `mem_mapAddress(dir, 0x2000, 0xCAFE0001)`
the translation of `0xCAFE0001` is 1, not `0x2000`. -/
theorem c3_unaligned_counterexample :
    MEM_IS_CANONICAL 0xCAFE0001 = true ∧
    (mem_getPhysicalAddress
      (mem_mapAddress freshState none 0x2000 0xCAFE0001) none 0xCAFE0001).1 = 1 ∧
    (mem_getPhysicalAddress
      (mem_mapAddress freshState none 0x2000 0xCAFE0001) none 0xCAFE0001).1 ≠
      0x2000 := by
  refine ⟨by decide, by decide, by decide⟩

/-! ## C4 counterexample -/

/-- A DMA-region state with one page allocated (cursor one page past the
base). -/
def dmaOneState : MState := { freshState with dmaRegion := MEM_DMA_REGION + 4096 }

/-- C4 is false as stated for `mem_freeDMA`: the claim says every base
other than `cursor - aligned_size` logs a warning, but `mem_freeDMA`
returns silently when the base is NULL (`if (!base || !size) return;`),
logging nothing. -/
theorem c4_zero_base_counterexample :
    (0 : Nat) ≠ usub dmaOneState.dmaRegion 4096 ∧
    (mem_freeDMA dmaOneState 0 4096).warns = dmaOneState.warns ∧
    (mem_freeDMA dmaOneState 0 4096).dmaRegion = dmaOneState.dmaRegion := by
  refine ⟨by decide, by decide, by decide⟩

/-! ## C6 counterexample -/

/-- C6 is false as stated: it aligns the requested size up and demands a
fatal stop whenever `cursor + aligned size` exceeds the region limit, but
the C alignment `(size + PAGE_SIZE) & ~0xFFF` wraps at 64 bits, so the
request `2^64 - 1` aligns to 0 and the allocator returns normally (cursor
unchanged) even though the cursor plus the genuinely aligned-up size
exceeds the limit. -/
theorem c6_wraparound_counterexample :
    MEM_DMA_REGION + MEM_DMA_REGION_SIZE < MEM_DMA_REGION + (U64 - 1) ∧
    (mem_allocateDMA freshState (U64 - 1)).isSome = true ∧
    ((mem_allocateDMA freshState (U64 - 1)).map (fun r => r.2.dmaRegion)) =
      some MEM_DMA_REGION := by
  refine ⟨by decide, by decide, by decide⟩

/-! ## Well-formedness invariant for page-table states

The correctness claims about mapping and freeing ranges only hold on
well-formed states: no large pages anywhere, every frame referenced by a
present entry below the PFA bump pointer, distinct present entries
referencing distinct frames, the directory itself never referenced,
non-present entries carrying a zero frame field, and not-yet-allocated
blocks zero-filled. -/

/-- Well-formedness of a memory state with respect to a directory `d`. -/
structure WF (s : MState) (d : Nat) : Prop where
  nosize : ∀ t i, (s.mem t i).size = false
  bound : ∀ t i, (s.mem t i).address * 4096 < s.nextBlock
  inj : ∀ t i t' i', (s.mem t i).present = true → (s.mem t' i').present = true →
    (s.mem t i).address = (s.mem t' i').address → t = t' ∧ i = i'
  nodir : ∀ t i, (s.mem t i).present = true → (s.mem t i).address * 4096 ≠ d
  zeroaddr : ∀ t i, (s.mem t i).present = false → (s.mem t i).address = 0
  dlt : d < s.nextBlock
  align : s.nextBlock % 4096 = 0
  fresh : ∀ t i, s.nextBlock ≤ t → s.mem t i = zeroPage

/-- A physical address usable as a table in state `s`: the directory
itself, or the frame of some present entry. -/
def TableOk (s : MState) (d t : Nat) : Prop :=
  t = d ∨ ∃ a b, (s.mem a b).present = true ∧ (s.mem a b).address * 4096 = t

@[simp] lemma writePage_mem (s : MState) (t i : Nat) (e : page_bits) (a b : Nat) :
    (writePage s t i e).mem a b = if a = t ∧ b = i then e else s.mem a b := rfl

@[simp] lemma writePage_nextBlock (s : MState) (t i : Nat) (e : page_bits) :
    (writePage s t i e).nextBlock = s.nextBlock := rfl

@[simp] lemma writePage_cdir (s : MState) (t i : Nat) (e : page_bits) :
    (writePage s t i e).cdir = s.cdir := rfl

@[simp] lemma writePage_dmaRegion (s : MState) (t i : Nat) (e : page_bits) :
    (writePage s t i e).dmaRegion = s.dmaRegion := rfl

@[simp] lemma writePage_driverRegion (s : MState) (t i : Nat) (e : page_bits) :
    (writePage s t i e).driverRegion = s.driverRegion := rfl

@[simp] lemma writePage_kernelHeap (s : MState) (t i : Nat) (e : page_bits) :
    (writePage s t i e).kernelHeap = s.kernelHeap := rfl

@[simp] lemma writePage_warns (s : MState) (t i : Nat) (e : page_bits) :
    (writePage s t i e).warns = s.warns := rfl

@[simp] lemma writePage_freed (s : MState) (t i : Nat) (e : page_bits) :
    (writePage s t i e).freed = s.freed := rfl

@[simp] lemma zeroTable_mem (s : MState) (t a b : Nat) :
    (zeroTable s t).mem a b = if a = t then zeroPage else s.mem a b := rfl

@[simp] lemma zeroTable_nextBlock (s : MState) (t : Nat) :
    (zeroTable s t).nextBlock = s.nextBlock := rfl

/-- A table named by `TableOk` lies strictly below the bump pointer. -/
lemma tableOk_lt {s : MState} {d t : Nat} (hInv : WF s d) (h : TableOk s d t) :
    t < s.nextBlock := by
  rcases h with h | ⟨a, b, _, hfr⟩
  · exact h ▸ hInv.dlt
  · exact hfr ▸ hInv.bound a b

/-- The per-level walker step under `MEM_CREATE` on a well-formed state:
it succeeds, yields a present non-large entry whose frame is a valid
table, preserves the invariant, consumes at most one fresh block, and
leaves every present entry unchanged. -/
lemma ensure_create (s : MState) (d t i : Nat) (hInv : WF s d)
    (ht : TableOk s d t) (hbud : s.nextBlock + 4096 ≤ 2 ^ 52) :
    ∃ e s', walkEnsure s t i MEM_CREATE = some (e, s') ∧
      e.present = true ∧ e.size = false ∧
      s'.mem t i = e ∧
      WF s' d ∧
      TableOk s' d (e.address * 4096) ∧
      s.nextBlock ≤ s'.nextBlock ∧ s'.nextBlock ≤ s.nextBlock + 4096 ∧
      (∀ a b, (s.mem a b).present = true → s'.mem a b = s.mem a b) ∧
      s'.cdir = s.cdir ∧ s'.dmaRegion = s.dmaRegion ∧
      s'.driverRegion = s.driverRegion ∧ s'.kernelHeap = s.kernelHeap ∧
      s'.warns = s.warns ∧ s'.freed = s.freed := by
  have htlt : t < s.nextBlock := tableOk_lt hInv ht
  by_cases hp : (s.mem t i).present = true
  · -- entry already present: no mutation
    refine ⟨s.mem t i, s, ?_, hp, hInv.nosize t i, rfl, hInv, ?_, le_refl _,
      by omega, fun a b _ => rfl, rfl, rfl, rfl, rfl, rfl, rfl⟩
    · unfold walkEnsure
      simp [hp]
    · exact Or.inr ⟨t, i, hp, rfl⟩
  · -- entry absent: a fresh block is allocated, zeroed and linked
    have hp' : (s.mem t i).present = false := by
      cases h : (s.mem t i).present
      · rfl
      · exact absurd h hp
    set B := s.nextBlock with hB
    have hBal : B % 4096 = 0 := hInv.align
    have hBlt : B < 2 ^ 52 := by omega
    have hBdiv : B / 4096 % 2 ^ 40 = B / 4096 := by
      have : B / 4096 < 2 ^ 40 := by omega
      exact Nat.mod_eq_of_lt this
    have hBmul : B / 4096 * 4096 = B := Nat.div_mul_cancel (Nat.dvd_of_mod_eq_zero hBal)
    have htne : t ≠ B := by omega
    -- the new entry
    set e2 : page_bits :=
      { s.mem t i with
        present := true, rw := true, usermode := true,
        address := B / 4096 % 2 ^ 40 } with he2
    have hrun : walkEnsure s t i MEM_CREATE =
        some (e2, writePage (zeroTable { s with nextBlock := B + 4096 } B) t i e2) := by
      unfold walkEnsure
      simp only [hp', MEM_CREATE, cnot, pmm_allocateBlock, PMM_BLOCK_SIZE]
      simp [he2, htne]
    set s' := writePage (zeroTable { s with nextBlock := B + 4096 } B) t i e2 with hs'
    have hmem : ∀ a b, s'.mem a b =
        if a = t ∧ b = i then e2 else if a = B then zeroPage else s.mem a b := by
      intro a b
      simp [hs', writePage, zeroTable]
    have hnext : s'.nextBlock = B + 4096 := rfl
    have hdlt := hInv.dlt
    have he2addr : e2.address = B / 4096 := hBdiv
    have he2size : e2.size = false := hInv.nosize t i
    have hB4096 : 4096 ≤ B := by omega
    have haddrne : ∀ a b, (s.mem a b).address ≠ B / 4096 := by
      intro a b h
      have h4 := hInv.bound a b
      omega
    have hpres : ∀ a b, (s.mem a b).present = true → s'.mem a b = s.mem a b := by
      intro a b hp1
      have halt : a < B := by
        by_contra hge
        have := hInv.fresh a b (by omega)
        rw [this] at hp1
        exact absurd hp1 (by decide)
      rw [hmem]
      have c1 : ¬(a = t ∧ b = i) := by
        rintro ⟨rfl, rfl⟩
        rw [hp1] at hp'
        exact absurd hp' (by decide)
      have c2 : a ≠ B := by omega
      rw [if_neg c1, if_neg c2]
    have hwf : WF s' d := by
      refine ⟨?_, ?_, ?_, ?_, ?_, ?_, ?_, ?_⟩
      · intro a b
        rw [hmem]
        split_ifs with c1 c2
        · exact he2size
        · rfl
        · exact hInv.nosize a b
      · intro a b
        rw [hmem, hnext]
        split_ifs with c1 c2
        · rw [he2addr]
          omega
        · simp [zeroPage]
        · have := hInv.bound a b
          omega
      · intro a b a' b' hp1 hp2 haddr
        rw [hmem] at hp1 haddr
        rw [hmem] at hp2 haddr
        by_cases c1 : a = t ∧ b = i
        · by_cases c2 : a' = t ∧ b' = i
          · exact ⟨c1.1.trans c2.1.symm, c1.2.trans c2.2.symm⟩
          · exfalso
            rw [if_pos c1] at haddr
            rw [if_neg c2] at hp2 haddr
            by_cases c3 : a' = B
            · rw [if_pos c3] at hp2
              exact absurd hp2 (by decide)
            · rw [if_neg c3] at hp2 haddr
              rw [he2addr] at haddr
              exact haddrne a' b' haddr.symm
        · rw [if_neg c1] at hp1 haddr
          by_cases c3 : a = B
          · rw [if_pos c3] at hp1
            exact absurd hp1 (by decide)
          · rw [if_neg c3] at hp1 haddr
            by_cases c2 : a' = t ∧ b' = i
            · exfalso
              rw [if_pos c2] at hp2 haddr
              rw [he2addr] at haddr
              exact haddrne a b haddr
            · rw [if_neg c2] at hp2 haddr
              by_cases c4 : a' = B
              · rw [if_pos c4] at hp2
                exact absurd hp2 (by decide)
              · rw [if_neg c4] at hp2 haddr
                exact hInv.inj a b a' b' hp1 hp2 haddr
      · intro a b hp1
        rw [hmem] at hp1 ⊢
        by_cases c1 : a = t ∧ b = i
        · rw [if_pos c1]
          rw [he2addr, hBmul]
          omega
        · rw [if_neg c1] at hp1 ⊢
          by_cases c2 : a = B
          · rw [if_pos c2] at hp1
            exact absurd hp1 (by decide)
          · rw [if_neg c2] at hp1 ⊢
            exact hInv.nodir a b hp1
      · intro a b hp1
        rw [hmem] at hp1 ⊢
        by_cases c1 : a = t ∧ b = i
        · rw [if_pos c1] at hp1
          have he2p : e2.present = true := rfl
          rw [he2p] at hp1
          exact absurd hp1 (by decide)
        · rw [if_neg c1] at hp1 ⊢
          by_cases c2 : a = B
          · rw [if_pos c2]
            rfl
          · rw [if_neg c2] at hp1 ⊢
            exact hInv.zeroaddr a b hp1
      · rw [hnext]
        omega
      · rw [hnext]
        omega
      · intro a b hge
        rw [hnext] at hge
        rw [hmem]
        have c1 : ¬(a = t ∧ b = i) := by
          rintro ⟨rfl, rfl⟩
          omega
        have c2 : a ≠ B := by omega
        rw [if_neg c1, if_neg c2]
        exact hInv.fresh a b (by omega)
    have hmti : s'.mem t i = e2 := by
      rw [hmem]
      simp
    have hpresent2 : (s'.mem t i).present = true := by rw [hmti]
    have haddr2 : (s'.mem t i).address * 4096 = e2.address * 4096 := by rw [hmti]
    have hle1 : s.nextBlock ≤ s'.nextBlock := by
      rw [hnext]
      omega
    have hle2 : s'.nextBlock ≤ s.nextBlock + 4096 := by
      rw [hnext]
    exact ⟨e2, s', hrun, rfl, he2size, hmti, hwf,
      Or.inr ⟨t, i, hpresent2, haddr2⟩, hle1, hle2, hpres, rfl, rfl, rfl, rfl,
      rfl, rfl⟩

/-- The walker step with `MEM_DEFAULT` flags: thanks to the
`(!flags) & MEM_CREATE` test, a zero flag word bails out on an absent
entry and mutates nothing on a present one. -/
lemma ensure_default (s : MState) (t i : Nat) :
    walkEnsure s t i MEM_DEFAULT =
      if (s.mem t i).present = true then some (s.mem t i, s) else none := by
  cases hp : (s.mem t i).present
  · simp [walkEnsure, hp, cnot, MEM_DEFAULT, MEM_CREATE]
  · simp [walkEnsure, hp]

/-- The PML4 entry the walk for `va` reads through directory `d`. -/
def pml4Cell (s : MState) (d va : Nat) : page_bits :=
  s.mem d (MEM_PML4_INDEX (alignOf va))

/-- The PDPT table the walk for `va` descends into. -/
def pdptTable (s : MState) (d va : Nat) : Nat :=
  (pml4Cell s d va).address * 4096

/-- The PDPT entry the walk for `va` reads. -/
def pdptCell (s : MState) (d va : Nat) : page_bits :=
  s.mem (pdptTable s d va) (MEM_PDPT_INDEX (alignOf va))

/-- The page-directory table the walk for `va` descends into. -/
def pdTable (s : MState) (d va : Nat) : Nat :=
  (pdptCell s d va).address * 4096

/-- The page-directory entry the walk for `va` reads. -/
def pdCell (s : MState) (d va : Nat) : page_bits :=
  s.mem (pdTable s d va) (MEM_PAGEDIR_INDEX (alignOf va))

/-- The leaf page table the walk for `va` ends in. -/
def ptTable (s : MState) (d va : Nat) : Nat :=
  (pdCell s d va).address * 4096

/-- The leaf entry (PTE) of the walk for `va`. -/
def ptCell (s : MState) (d va : Nat) : page_bits :=
  s.mem (ptTable s d va) (MEM_PAGETBL_INDEX (alignOf va))

/-- A complete present path for the page of `va` through directory `d`:
all three interior entries are present and non-large. -/
def PathOk (s : MState) (d va : Nat) : Prop :=
  (pml4Cell s d va).present = true ∧ (pml4Cell s d va).size = false ∧
  (pdptCell s d va).present = true ∧ (pdptCell s d va).size = false ∧
  (pdCell s d va).present = true ∧ (pdCell s d va).size = false

/-- On a state with a complete present path, the `MEM_DEFAULT` walk
succeeds without mutating anything and resolves the leaf location. -/
lemma getPage_of_path {s : MState} {dir : Option Nat} {d va : Nat}
    (hca : MEM_IS_CANONICAL va = true) (hd : dir.getD s.cdir = d)
    (hp : PathOk s d va) :
    mem_getPage s dir va MEM_DEFAULT =
      (some (ptTable s d va, MEM_PAGETBL_INDEX (alignOf va)), s) := by
  obtain ⟨h1p, h1s, h2p, h2s, h3p, h3s⟩ := hp
  rw [mem_getPage, hca]
  simp only [Bool.true_eq_false, if_false]
  rw [mem_getPageAligned]
  simp only [hd, ensure_default]
  rw [pml4Cell] at h1p h1s
  rw [pdptCell, pdptTable, pml4Cell] at h2p h2s
  rw [pdCell, pdTable, pdptCell, pdptTable, pml4Cell] at h3p h3s
  simp only [h1p, if_true, MEM_GET_FRAME, h2p, h2s, h3p, h3s]
  simp [ptTable, pdCell, pdTable, pdptCell, pdptTable, pml4Cell, MEM_GET_FRAME]

/-- Present paths survive any step that leaves present entries unchanged:
the path stays complete and all its tables and cells are unchanged. -/
lemma pathOk_mono {s s' : MState} {d va : Nat}
    (hpres : ∀ a b, (s.mem a b).present = true → s'.mem a b = s.mem a b)
    (hp : PathOk s d va) :
    PathOk s' d va ∧ pml4Cell s' d va = pml4Cell s d va ∧
      pdptTable s' d va = pdptTable s d va ∧
      pdptCell s' d va = pdptCell s d va ∧
      pdTable s' d va = pdTable s d va ∧
      pdCell s' d va = pdCell s d va ∧
      ptTable s' d va = ptTable s d va := by
  obtain ⟨h1p, h1s, h2p, h2s, h3p, h3s⟩ := hp
  have c1 : pml4Cell s' d va = pml4Cell s d va := hpres _ _ h1p
  have t1 : pdptTable s' d va = pdptTable s d va := by
    rw [pdptTable, pdptTable, c1]
  have c2 : pdptCell s' d va = pdptCell s d va := by
    rw [pdptCell, pdptCell, t1]
    exact hpres _ _ h2p
  have t2 : pdTable s' d va = pdTable s d va := by
    rw [pdTable, pdTable, c2]
  have c3 : pdCell s' d va = pdCell s d va := by
    rw [pdCell, pdCell, t2]
    exact hpres _ _ h3p
  have t3 : ptTable s' d va = ptTable s d va := by
    rw [ptTable, ptTable, c3]
  exact ⟨⟨by rw [c1]; exact h1p, by rw [c1]; exact h1s,
    by rw [c2]; exact h2p, by rw [c2]; exact h2s,
    by rw [c3]; exact h3p, by rw [c3]; exact h3s⟩, c1, t1, c2, t2, c3, t3⟩

/-- The `MEM_CREATE` walk on a well-formed state: it succeeds, returns
the leaf location for the (aligned) address, establishes a complete
present path, preserves well-formedness and every present entry, and
consumes at most three fresh blocks. -/
theorem getPage_create (s : MState) (dir : Option Nat) (va d : Nat)
    (hd : dir.getD s.cdir = d) (hInv : WF s d)
    (hca : MEM_IS_CANONICAL va = true)
    (hbud : s.nextBlock + 3 * 4096 ≤ 2 ^ 52) :
    ∃ s', mem_getPage s dir va MEM_CREATE =
        (some (ptTable s' d va, MEM_PAGETBL_INDEX (alignOf va)), s') ∧
      WF s' d ∧ PathOk s' d va ∧
      s.nextBlock ≤ s'.nextBlock ∧ s'.nextBlock ≤ s.nextBlock + 3 * 4096 ∧
      (∀ a b, (s.mem a b).present = true → s'.mem a b = s.mem a b) ∧
      s'.cdir = s.cdir ∧ s'.dmaRegion = s.dmaRegion ∧
      s'.driverRegion = s.driverRegion ∧ s'.kernelHeap = s.kernelHeap ∧
      s'.warns = s.warns ∧ s'.freed = s.freed := by
  obtain ⟨e1, s1, hrun1, h1p, h1s, h1m, hwf1, htok1, hle1a, hle1b, hpres1,
    hcd1, hdm1, hdr1, hkh1, hw1, hf1⟩ :=
    ensure_create s d d (MEM_PML4_INDEX (alignOf va)) hInv (Or.inl rfl) (by omega)
  obtain ⟨e2, s2, hrun2, h2p, h2s, h2m, hwf2, htok2, hle2a, hle2b, hpres2,
    hcd2, hdm2, hdr2, hkh2, hw2, hf2⟩ :=
    ensure_create s1 d (e1.address * 4096) (MEM_PDPT_INDEX (alignOf va)) hwf1
      htok1 (by omega)
  obtain ⟨e3, s3, hrun3, h3p, h3s, h3m, hwf3, htok3, hle3a, hle3b, hpres3,
    hcd3, hdm3, hdr3, hkh3, hw3, hf3⟩ :=
    ensure_create s2 d (e2.address * 4096) (MEM_PAGEDIR_INDEX (alignOf va)) hwf2
      htok2 (by omega)
  have k1 : (s1.mem d (MEM_PML4_INDEX (alignOf va))).present = true := by
    rw [h1m]
    exact h1p
  have k2 : s2.mem d (MEM_PML4_INDEX (alignOf va)) = e1 := by
    rw [hpres2 _ _ k1, h1m]
  have k2p : (s2.mem d (MEM_PML4_INDEX (alignOf va))).present = true := by
    rw [k2]
    exact h1p
  have hc1 : pml4Cell s3 d va = e1 := by
    rw [pml4Cell, hpres3 _ _ k2p, k2]
  have ht1 : pdptTable s3 d va = e1.address * 4096 := by
    rw [pdptTable, hc1]
  have k3 : (s2.mem (e1.address * 4096) (MEM_PDPT_INDEX (alignOf va))).present
      = true := by
    rw [h2m]
    exact h2p
  have hc2 : pdptCell s3 d va = e2 := by
    rw [pdptCell, ht1, hpres3 _ _ k3, h2m]
  have ht2 : pdTable s3 d va = e2.address * 4096 := by
    rw [pdTable, hc2]
  have hc3 : pdCell s3 d va = e3 := by
    rw [pdCell, ht2, h3m]
  have ht3 : ptTable s3 d va = e3.address * 4096 := by
    rw [ptTable, hc3]
  have hpok : PathOk s3 d va := by
    refine ⟨?_, ?_, ?_, ?_, ?_, ?_⟩
    · rw [hc1]
      exact h1p
    · rw [hc1]
      exact h1s
    · rw [hc2]
      exact h2p
    · rw [hc2]
      exact h2s
    · rw [hc3]
      exact h3p
    · rw [hc3]
      exact h3s
  refine ⟨s3, ?_, hwf3, hpok, by omega, by omega, ?_, ?_, ?_, ?_, ?_, ?_, ?_⟩
  · rw [ht3, mem_getPage, hca]
    simp only [Bool.true_eq_false, if_false]
    rw [mem_getPageAligned]
    simp only [hd, MEM_GET_FRAME, hrun1, hrun2, h2s, hrun3, h3s]
    simp
  · intro a b hp1
    have q1 : (s1.mem a b).present = true := by
      rw [hpres1 _ _ hp1]
      exact hp1
    have q2 : (s2.mem a b).present = true := by
      rw [hpres2 _ _ q1]
      exact q1
    rw [hpres3 _ _ q2, hpres2 _ _ q1, hpres1 _ _ hp1]
  · rw [hcd3, hcd2, hcd1]
  · rw [hdm3, hdm2, hdm1]
  · rw [hdr3, hdr2, hdr1]
  · rw [hkh3, hkh2, hkh1]
  · rw [hw3, hw2, hw1]
  · rw [hf3, hf2, hf1]

/-- Cancellation of the frame shift. -/
lemma addr_cancel {a b : Nat} (h : a * 4096 = b * 4096) : a = b :=
  Nat.eq_of_mul_eq_mul_right (by norm_num) h

/-- The PDPT table of a complete path is never the directory. -/
lemma pdptTable_ne_d {s : MState} {d va : Nat} (hInv : WF s d)
    (hp : PathOk s d va) : pdptTable s d va ≠ d :=
  hInv.nodir d (MEM_PML4_INDEX (alignOf va)) hp.1

/-- The PD table of a complete path is never the directory. -/
lemma pdTable_ne_d {s : MState} {d va : Nat} (hInv : WF s d)
    (hp : PathOk s d va) : pdTable s d va ≠ d :=
  hInv.nodir (pdptTable s d va) (MEM_PDPT_INDEX (alignOf va)) hp.2.2.1

/-- The leaf table of a complete path is never the directory. -/
lemma ptTable_ne_d {s : MState} {d va : Nat} (hInv : WF s d)
    (hp : PathOk s d va) : ptTable s d va ≠ d :=
  hInv.nodir (pdTable s d va) (MEM_PAGEDIR_INDEX (alignOf va)) hp.2.2.2.2.1

/-- The leaf table of one complete path is never the PDPT table of
another: otherwise, by injectivity of frames, the PD table of the first
would be the directory. -/
lemma ptTable_ne_pdptTable {s : MState} {d va vb : Nat} (hInv : WF s d)
    (hpa : PathOk s d va) (hpb : PathOk s d vb) :
    ptTable s d va ≠ pdptTable s d vb := by
  intro h
  have haddr : (pdCell s d va).address = (pml4Cell s d vb).address :=
    addr_cancel h
  have hinj := hInv.inj (pdTable s d va) (MEM_PAGEDIR_INDEX (alignOf va))
    d (MEM_PML4_INDEX (alignOf vb)) hpa.2.2.2.2.1 hpb.1 haddr
  exact pdTable_ne_d hInv hpa hinj.1

/-- The leaf table of one complete path is never the PD table of
another: otherwise the PDPT table of the first would be the directory. -/
lemma ptTable_ne_pdTable {s : MState} {d va vb : Nat} (hInv : WF s d)
    (hpa : PathOk s d va) (hpb : PathOk s d vb) :
    ptTable s d va ≠ pdTable s d vb := by
  intro h
  have haddr : (pdCell s d va).address = (pdptCell s d vb).address :=
    addr_cancel h
  have hinj := hInv.inj (pdTable s d va) (MEM_PAGEDIR_INDEX (alignOf va))
    (pdptTable s d vb) (MEM_PDPT_INDEX (alignOf vb)) hpa.2.2.2.2.1 hpb.2.2.1
    haddr
  have h2 : pdTable s d va = pdptTable s d vb := hinj.1
  have haddr2 : (pdptCell s d va).address = (pml4Cell s d vb).address :=
    addr_cancel (by rw [← pdTable, ← pdptTable, h2])
  have hinj2 := hInv.inj (pdptTable s d va) (MEM_PDPT_INDEX (alignOf va))
    d (MEM_PML4_INDEX (alignOf vb)) hpa.2.2.1 hpb.1 haddr2
  exact pdptTable_ne_d hInv hpa hinj2.1

/-- Two complete paths ending in the same leaf table agree on all three
interior indices and tables. -/
lemma chase_tables {s : MState} {d va vb : Nat} (hInv : WF s d)
    (hpa : PathOk s d va) (hpb : PathOk s d vb)
    (h : ptTable s d va = ptTable s d vb) :
    MEM_PML4_INDEX (alignOf va) = MEM_PML4_INDEX (alignOf vb) ∧
    MEM_PDPT_INDEX (alignOf va) = MEM_PDPT_INDEX (alignOf vb) ∧
    MEM_PAGEDIR_INDEX (alignOf va) = MEM_PAGEDIR_INDEX (alignOf vb) := by
  have h3 : (pdCell s d va).address = (pdCell s d vb).address := addr_cancel h
  have hinj3 := hInv.inj (pdTable s d va) (MEM_PAGEDIR_INDEX (alignOf va))
    (pdTable s d vb) (MEM_PAGEDIR_INDEX (alignOf vb)) hpa.2.2.2.2.1
    hpb.2.2.2.2.1 h3
  have h2 : (pdptCell s d va).address = (pdptCell s d vb).address :=
    addr_cancel (by rw [← pdTable, ← pdTable, hinj3.1])
  have hinj2 := hInv.inj (pdptTable s d va) (MEM_PDPT_INDEX (alignOf va))
    (pdptTable s d vb) (MEM_PDPT_INDEX (alignOf vb)) hpa.2.2.1 hpb.2.2.1 h2
  have h1 : (pml4Cell s d va).address = (pml4Cell s d vb).address :=
    addr_cancel (by rw [← pdptTable, ← pdptTable, hinj2.1])
  have hinj1 := hInv.inj d (MEM_PML4_INDEX (alignOf va))
    d (MEM_PML4_INDEX (alignOf vb)) hpa.1 hpb.1 h1
  exact ⟨hinj1.2, hinj2.2, hinj3.2⟩

/-- A write anywhere inside the leaf table of `va` leaves every other
complete path (and its leaf table) intact, because a leaf table is never
an interior table of any path. -/
lemma pathOk_after_leaf_write {s s' : MState} {d va vb : Nat} (hInv : WF s d)
    (hpa : PathOk s d va) (hpb : PathOk s d vb)
    (hoff : ∀ a b, a ≠ ptTable s d va → s'.mem a b = s.mem a b) :
    PathOk s' d vb ∧ pdptTable s' d vb = pdptTable s d vb ∧
      pdTable s' d vb = pdTable s d vb ∧ ptTable s' d vb = ptTable s d vb := by
  obtain ⟨h1p, h1s, h2p, h2s, h3p, h3s⟩ := hpb
  have c1 : pml4Cell s' d vb = pml4Cell s d vb :=
    hoff _ _ (Ne.symm (ptTable_ne_d hInv hpa))
  have t1 : pdptTable s' d vb = pdptTable s d vb := by
    rw [pdptTable, pdptTable, c1]
  have c2 : pdptCell s' d vb = pdptCell s d vb := by
    rw [pdptCell, pdptCell, t1]
    exact hoff _ _ (Ne.symm (ptTable_ne_pdptTable hInv hpa ⟨h1p, h1s, h2p, h2s, h3p, h3s⟩))
  have t2 : pdTable s' d vb = pdTable s d vb := by
    rw [pdTable, pdTable, c2]
  have c3 : pdCell s' d vb = pdCell s d vb := by
    rw [pdCell, pdCell, t2]
    exact hoff _ _ (Ne.symm (ptTable_ne_pdTable hInv hpa ⟨h1p, h1s, h2p, h2s, h3p, h3s⟩))
  have t3 : ptTable s' d vb = ptTable s d vb := by
    rw [ptTable, ptTable, c3]
  exact ⟨⟨by rw [c1]; exact h1p, by rw [c1]; exact h1s,
    by rw [c2]; exact h2p, by rw [c2]; exact h2s,
    by rw [c3]; exact h3p, by rw [c3]; exact h3s⟩, t1, t2, t3⟩

/-- Well-formedness survives overwriting one cell below the bump pointer
with a present, non-large entry whose frame is in range, not the
directory, and held by no other present cell. -/
lemma wf_update_cell {s s' : MState} {d t3 i3 : Nat} (hInv : WF s d)
    (e' : page_bits)
    (hmem : ∀ a b, s'.mem a b = if a = t3 ∧ b = i3 then e' else s.mem a b)
    (hnb1 : s.nextBlock ≤ s'.nextBlock)
    (hnb3 : s'.nextBlock % 4096 = 0)
    (ht3 : t3 < s.nextBlock)
    (hsize : e'.size = false) (hpres : e'.present = true)
    (haddr : e'.address * 4096 < s'.nextBlock)
    (hinjok : ∀ a b, (s.mem a b).present = true →
      (s.mem a b).address = e'.address → a = t3 ∧ b = i3)
    (hnd : e'.address * 4096 ≠ d) : WF s' d := by
  refine ⟨?_, ?_, ?_, ?_, ?_, ?_, ?_, ?_⟩
  · intro a b
    rw [hmem]
    split_ifs with c1
    · exact hsize
    · exact hInv.nosize a b
  · intro a b
    rw [hmem]
    split_ifs with c1
    · exact haddr
    · have := hInv.bound a b
      omega
  · intro a b a' b' hp1 hp2 hadr
    rw [hmem] at hp1 hadr
    rw [hmem] at hp2 hadr
    by_cases c1 : a = t3 ∧ b = i3
    · by_cases c2 : a' = t3 ∧ b' = i3
      · exact ⟨c1.1.trans c2.1.symm, c1.2.trans c2.2.symm⟩
      · rw [if_pos c1] at hadr
        rw [if_neg c2] at hp2 hadr
        have := hinjok a' b' hp2 hadr.symm
        exact absurd this c2
    · rw [if_neg c1] at hp1 hadr
      by_cases c2 : a' = t3 ∧ b' = i3
      · rw [if_pos c2] at hp2 hadr
        have := hinjok a b hp1 hadr
        exact absurd this c1
      · rw [if_neg c2] at hp2 hadr
        exact hInv.inj a b a' b' hp1 hp2 hadr
  · intro a b hp1
    rw [hmem] at hp1 ⊢
    by_cases c1 : a = t3 ∧ b = i3
    · rw [if_pos c1]
      exact hnd
    · rw [if_neg c1] at hp1 ⊢
      exact hInv.nodir a b hp1
  · intro a b hp1
    rw [hmem] at hp1 ⊢
    by_cases c1 : a = t3 ∧ b = i3
    · rw [if_pos c1] at hp1
      rw [hpres] at hp1
      exact absurd hp1 (by decide)
    · rw [if_neg c1] at hp1 ⊢
      exact hInv.zeroaddr a b hp1
  · have := hInv.dlt
    omega
  · exact hnb3
  · intro a b hge
    rw [hmem]
    have c1 : ¬(a = t3 ∧ b = i3) := by
      rintro ⟨rfl, rfl⟩
      omega
    rw [if_neg c1]
    exact hInv.fresh a b (by omega)

/-- The leaf value written by `mem_allocatePage` when it wires a fresh
frame: policy bits from the flags, stale size bit, fresh frame number. -/
def allocCellFresh (s : MState) (t3 i3 f : Nat) : page_bits :=
  { present := f &&& MEM_NOT_PRESENT == 0,
    rw := f &&& MEM_READONLY == 0,
    usermode := f &&& MEM_KERNEL == 0,
    writethrough := !(f &&& MEM_WRITETHROUGH == 0),
    cache_disable := !(f &&& MEM_NOT_CACHEABLE == 0),
    size := (s.mem t3 i3).size,
    address := s.nextBlock / 4096 % 2 ^ 40 }

/-- The leaf value written by `mem_allocatePage` when it keeps the
existing frame. -/
def allocCellKeep (s : MState) (t3 i3 f : Nat) : page_bits :=
  { present := f &&& MEM_NOT_PRESENT == 0,
    rw := f &&& MEM_READONLY == 0,
    usermode := f &&& MEM_KERNEL == 0,
    writethrough := !(f &&& MEM_WRITETHROUGH == 0),
    cache_disable := !(f &&& MEM_NOT_CACHEABLE == 0),
    size := (s.mem t3 i3).size,
    address := (s.mem t3 i3).address }

/-- Specification of `mem_allocatePage` at a leaf cell, for flag words
without `MEM_FREE_PAGE` and without `MEM_NOT_PRESENT`: only the named
cell changes; its policy bits follow the flags; a fresh frame is wired
exactly when the cell has none and `MEM_NOALLOC` is absent, in which case
well-formedness is preserved. -/
lemma allocatePage_spec (s : MState) (d t3 i3 f : Nat) (hInv : WF s d)
    (hfree : f &&& MEM_FREE_PAGE = 0) (hnp : f &&& MEM_NOT_PRESENT = 0)
    (ht3 : t3 < s.nextBlock) (hbud : s.nextBlock + 4096 ≤ 2 ^ 52) :
    ∃ s', mem_allocatePage s (some (t3, i3)) f = s' ∧
      (∀ a b, ¬(a = t3 ∧ b = i3) → s'.mem a b = s.mem a b) ∧
      (s'.mem t3 i3).present = true ∧
      (s'.mem t3 i3).rw = (f &&& MEM_READONLY == 0) ∧
      (s'.mem t3 i3).usermode = (f &&& MEM_KERNEL == 0) ∧
      (s'.mem t3 i3).writethrough = !(f &&& MEM_WRITETHROUGH == 0) ∧
      (s'.mem t3 i3).cache_disable = !(f &&& MEM_NOT_CACHEABLE == 0) ∧
      (s'.mem t3 i3).size = false ∧
      (f &&& MEM_NOALLOC ≠ 0 → (s'.mem t3 i3).address = (s.mem t3 i3).address) ∧
      (f &&& MEM_NOALLOC = 0 → WF s' d) ∧
      s.nextBlock ≤ s'.nextBlock ∧ s'.nextBlock ≤ s.nextBlock + 4096 ∧
      s'.cdir = s.cdir ∧ s'.dmaRegion = s.dmaRegion ∧
      s'.driverRegion = s.driverRegion ∧ s'.kernelHeap = s.kernelHeap ∧
      s'.warns = s.warns ∧ s'.freed = s.freed := by
  have hfree' : (f &&& MEM_FREE_PAGE ≠ 0) = False := by simp [hfree]
  have hpresbit : (f &&& MEM_NOT_PRESENT == 0) = true := by
    rw [hnp]
    rfl
  refine ⟨mem_allocatePage s (some (t3, i3)) f, rfl, ?_⟩
  by_cases hcond : (s.mem t3 i3).address = 0 ∧ f &&& MEM_NOALLOC = 0
  · have hBal : s.nextBlock % 4096 = 0 := hInv.align
    have hBdiv : s.nextBlock / 4096 % 2 ^ 40 = s.nextBlock / 4096 :=
      Nat.mod_eq_of_lt (by omega)
    have hBmul : s.nextBlock / 4096 * 4096 = s.nextBlock :=
      Nat.div_mul_cancel (Nat.dvd_of_mod_eq_zero hBal)
    have hmem : ∀ a b, (mem_allocatePage s (some (t3, i3)) f).mem a b =
        if a = t3 ∧ b = i3 then allocCellFresh s t3 i3 f else s.mem a b := by
      intro a b
      rw [mem_allocatePage]
      simp only [hfree', if_false]
      rw [if_pos hcond]
      simp only [pmm_allocateBlock, writePage_mem]
      simp [allocCellFresh]
      split_ifs <;> rfl
    have hnb : (mem_allocatePage s (some (t3, i3)) f).nextBlock =
        s.nextBlock + 4096 := by
      rw [mem_allocatePage]
      simp only [hfree', if_false]
      rw [if_pos hcond]
      rfl
    have hflds : (mem_allocatePage s (some (t3, i3)) f).cdir = s.cdir ∧
        (mem_allocatePage s (some (t3, i3)) f).dmaRegion = s.dmaRegion ∧
        (mem_allocatePage s (some (t3, i3)) f).driverRegion = s.driverRegion ∧
        (mem_allocatePage s (some (t3, i3)) f).kernelHeap = s.kernelHeap ∧
        (mem_allocatePage s (some (t3, i3)) f).warns = s.warns ∧
        (mem_allocatePage s (some (t3, i3)) f).freed = s.freed := by
      rw [mem_allocatePage]
      simp only [hfree', if_false]
      rw [if_pos hcond]
      exact ⟨rfl, rfl, rfl, rfl, rfl, rfl⟩
    have hcell : (mem_allocatePage s (some (t3, i3)) f).mem t3 i3 =
        allocCellFresh s t3 i3 f := by
      rw [hmem]
      simp
    have hsize : (allocCellFresh s t3 i3 f).size = false := hInv.nosize t3 i3
    have hwf : f &&& MEM_NOALLOC = 0 → WF (mem_allocatePage s (some (t3, i3)) f) d := by
      intro _
      refine wf_update_cell hInv (allocCellFresh s t3 i3 f) hmem (by omega)
        (by omega) ht3 hsize hpresbit ?_ ?_ ?_
      · show (allocCellFresh s t3 i3 f).address * 4096 <
          (mem_allocatePage s (some (t3, i3)) f).nextBlock
        rw [hnb]
        show s.nextBlock / 4096 % 2 ^ 40 * 4096 < s.nextBlock + 4096
        rw [hBdiv, hBmul]
        omega
      · intro a b hp1 hadr
        exfalso
        have hb := hInv.bound a b
        have : (allocCellFresh s t3 i3 f).address = s.nextBlock / 4096 := hBdiv
        rw [this] at hadr
        omega
      · show (allocCellFresh s t3 i3 f).address * 4096 ≠ d
        show s.nextBlock / 4096 % 2 ^ 40 * 4096 ≠ d
        rw [hBdiv, hBmul]
        have := hInv.dlt
        omega
    refine ⟨?_, by rw [hcell]; exact hpresbit, by rw [hcell]; rfl,
      by rw [hcell]; rfl, by rw [hcell]; rfl, by rw [hcell]; rfl,
      by rw [hcell]; exact hsize, ?_, hwf, by omega, by omega,
      hflds.1, hflds.2.1, hflds.2.2.1, hflds.2.2.2.1, hflds.2.2.2.2.1,
      hflds.2.2.2.2.2⟩
    · intro a b hne
      rw [hmem, if_neg hne]
    · intro hna
      exact absurd hcond.2 hna
  · have hmem : ∀ a b, (mem_allocatePage s (some (t3, i3)) f).mem a b =
        if a = t3 ∧ b = i3 then allocCellKeep s t3 i3 f else s.mem a b := by
      intro a b
      rw [mem_allocatePage]
      simp only [hfree', if_false]
      rw [if_neg hcond]
      rfl
    have hnb : (mem_allocatePage s (some (t3, i3)) f).nextBlock = s.nextBlock := by
      rw [mem_allocatePage]
      simp only [hfree', if_false]
      rw [if_neg hcond]
      rfl
    have hflds : (mem_allocatePage s (some (t3, i3)) f).cdir = s.cdir ∧
        (mem_allocatePage s (some (t3, i3)) f).dmaRegion = s.dmaRegion ∧
        (mem_allocatePage s (some (t3, i3)) f).driverRegion = s.driverRegion ∧
        (mem_allocatePage s (some (t3, i3)) f).kernelHeap = s.kernelHeap ∧
        (mem_allocatePage s (some (t3, i3)) f).warns = s.warns ∧
        (mem_allocatePage s (some (t3, i3)) f).freed = s.freed := by
      rw [mem_allocatePage]
      simp only [hfree', if_false]
      rw [if_neg hcond]
      exact ⟨rfl, rfl, rfl, rfl, rfl, rfl⟩
    have hcell : (mem_allocatePage s (some (t3, i3)) f).mem t3 i3 =
        allocCellKeep s t3 i3 f := by
      rw [hmem]
      simp
    have hsize : (allocCellKeep s t3 i3 f).size = false := hInv.nosize t3 i3
    have hwf : f &&& MEM_NOALLOC = 0 → WF (mem_allocatePage s (some (t3, i3)) f) d := by
      intro hna
      have hadr0 : (s.mem t3 i3).address ≠ 0 := by
        intro h0
        exact hcond ⟨h0, hna⟩
      have hp : (s.mem t3 i3).present = true := by
        by_contra hnp2
        have hf2 : (s.mem t3 i3).present = false := by
          cases h : (s.mem t3 i3).present
          · rfl
          · exact absurd h hnp2
        exact hadr0 (hInv.zeroaddr t3 i3 hf2)
      refine wf_update_cell hInv (allocCellKeep s t3 i3 f) hmem ?_ ?_ ht3 hsize
        hpresbit ?_ ?_ ?_
      · rw [hnb]
      · rw [hnb]
        exact hInv.align
      · rw [hnb]
        exact hInv.bound t3 i3
      · intro a b hp1 hadr
        exact hInv.inj a b t3 i3 hp1 hp hadr
      · exact hInv.nodir t3 i3 hp
    refine ⟨?_, by rw [hcell]; exact hpresbit, by rw [hcell]; rfl,
      by rw [hcell]; rfl, by rw [hcell]; rfl, by rw [hcell]; rfl,
      by rw [hcell]; exact hsize, ?_, hwf, by omega, by omega,
      hflds.1, hflds.2.1, hflds.2.2.1, hflds.2.2.2.1, hflds.2.2.2.2.1,
      hflds.2.2.2.2.2⟩
    · intro a b hne
      rw [hmem, if_neg hne]
    · intro _
      rw [hcell]
      rfl

/-- Adding a sub-page offset to an aligned canonical address stays
canonical. -/
lemma canonical_add_offset {va k : Nat} (hca : MEM_IS_CANONICAL va = true)
    (hva : va % 4096 = 0) (hvb : va < U64) (hk : k < 4096) :
    MEM_IS_CANONICAL (va + k) = true := by
  simp only [MEM_IS_CANONICAL, Bool.or_eq_true, beq_iff_eq] at hca ⊢
  have hU : U64 = 18446744073709551616 := rfl
  rw [hU] at hvb
  rcases hca with h | h
  · left
    omega
  · right
    omega

/-- C3 (amended): for page-aligned canonical `va` and page-aligned
`phys < 2^52`, on a well-formed state, after `mem_mapAddress(phys, va)`
the translation of `va + k` is `phys + k` for every `k < 4096` (the
`k = 0` case is the translation of `va` itself). -/
theorem c3_map_then_translate (s : MState) (phys va k : Nat)
    (hInv : WF s s.cdir) (hca : MEM_IS_CANONICAL va = true)
    (hva : va % 4096 = 0) (hvb : va < U64)
    (hph : phys % 4096 = 0) (hpb : phys < 2 ^ 52) (hk : k < 4096)
    (hbud : s.nextBlock + 4 * 4096 ≤ 2 ^ 52) :
    (mem_getPhysicalAddress (mem_mapAddress s none phys va) none (va + k)).1 =
      phys + k := by
  obtain ⟨s1, hrun, hwf1, hpok1, hnb1a, hnb1b, hpres1, hcd1, hdm1, hdr1, hkh1,
    hw1, hf1⟩ :=
    getPage_create s none va s.cdir rfl hInv hca (by omega)
  set d := s.cdir with hd
  set t3 := ptTable s1 d va with ht3
  set i3 := MEM_PAGETBL_INDEX (alignOf va) with hi3
  have ht3lt : t3 < s1.nextBlock := by
    rw [ht3, ptTable]
    exact hwf1.bound _ _
  obtain ⟨s2, hrun2, hoff2, hp2, hrw2, hum2, hwt2, hcd2b, hsz2, hkeep2, _,
    hnb2a, hnb2b, hcd2, hdm2, hdr2, hkh2, hw2, hf2⟩ :=
    allocatePage_spec s1 d t3 i3 MEM_NOALLOC hwf1 (by decide) (by decide)
      ht3lt (by omega)
  -- the final frame write of mem_mapAddress
  set efinal : page_bits :=
    { (s2.mem t3 i3) with address := phys / 4096 % 2 ^ 40 } with hef
  have hmap : mem_mapAddress s none phys va = writePage s2 t3 i3 efinal := by
    rw [mem_mapAddress, hca]
    simp only [Bool.true_eq_false, if_false]
    rw [hrun]
    simp only [← hd, ← ht3, ← hi3]
    rw [hrun2]
  set s3 := writePage s2 t3 i3 efinal with hs3
  have hoff3 : ∀ a b, a ≠ t3 → s3.mem a b = s1.mem a b := by
    intro a b hne
    rw [hs3, writePage_mem, if_neg (by rintro ⟨rfl, rfl⟩; exact hne rfl)]
    exact hoff2 a b (by rintro ⟨rfl, rfl⟩; exact hne rfl)
  obtain ⟨hpok3, ht1', ht2', ht3'⟩ :=
    pathOk_after_leaf_write hwf1 hpok1 hpok1 hoff3
  have hcell3 : s3.mem t3 i3 = efinal := by
    rw [hs3, writePage_mem, if_pos ⟨rfl, rfl⟩]
  have hcd3 : s3.cdir = d := by
    rw [hs3, writePage_cdir, hcd2, hcd1, hd]
  have hgd3 : (none : Option Nat).getD s3.cdir = d := hcd3
  -- now translate va + k
  have hcak : MEM_IS_CANONICAL (va + k) = true :=
    canonical_add_offset hca hva hvb hk
  have hmod : (va + k) % 4096 = k := by omega
  have hvdiv : (va + k) / 4096 * 4096 = va := by omega
  have halign : alignOf va = va := by
    rw [alignOf, PAGE_SIZE]
    simp [hva]
  rw [hmap, mem_getPhysicalAddress, hcak]
  simp only [Bool.true_eq_false, if_false, hmod, hvdiv]
  by_cases hk0 : k = 0
  · subst hk0
    simp only [if_neg (by omega : ¬(0 : Nat) ≠ 0), Nat.add_zero]
    simp only [getPage_of_path hca hgd3 hpok3]
    rw [ht3', ← ht3, ← hi3, hcell3, MEM_GET_FRAME]
    have hea : efinal.address = phys / 4096 := Nat.mod_eq_of_lt (by omega)
    rw [hea]
    omega
  · simp only [if_pos hk0]
    simp only [getPage_of_path hca hgd3 hpok3]
    rw [ht3', ← ht3, ← hi3, hcell3, MEM_GET_FRAME]
    have hea : efinal.address = phys / 4096 := Nat.mod_eq_of_lt (by omega)
    rw [hea]
    omega

/-- Witness for C3 (amended) on the fresh state: spec scenario S1,
`map_address(0x2000, 0xCAFE0000)` then `virt_to_phys(0xCAFE0123) = 0x2123`. -/
theorem c3_map_then_translate_witness :
    WF freshState freshState.cdir ∧
    (mem_getPhysicalAddress (mem_mapAddress freshState none 0x2000 0xCAFE0000)
      none (0xCAFE0000 + 0x123)).1 = 0x2000 + 0x123 := by
  have hwf : WF freshState freshState.cdir := by
    refine ⟨fun t i => rfl, fun t i => by simp [freshState, zeroPage], ?_,
      fun t i h => absurd h (by simp [freshState, zeroPage]),
      fun t i _ => rfl, by simp [freshState], by simp [freshState],
      fun t i _ => rfl⟩
    intro t i t' i' h1 h2 h3
    exact absurd h1 (by simp [freshState, zeroPage])
  exact ⟨hwf, c3_map_then_translate freshState 0x2000 0xCAFE0000 0x123 hwf
    (by decide) (by decide) (by decide) (by decide) (by decide) (by decide)
    (by decide)⟩

/-- Aligned addresses pass through the walker's alignment untouched. -/
lemma alignOf_aligned {p : Nat} (h : p % PAGE_SIZE = 0) : alignOf p = p := by
  simp [alignOf, h]

/-- Distinct aligned canonical pages differ in at least one of the four
walk indices. -/
lemma quad_ne_of_page_ne {p q : Nat} (hp : MEM_IS_CANONICAL p = true)
    (hq : MEM_IS_CANONICAL q = true) (hpu : p < U64) (hqu : q < U64)
    (hpa : p % 4096 = 0) (hqa : q % 4096 = 0) (hne : p ≠ q) :
    ¬(MEM_PML4_INDEX (alignOf p) = MEM_PML4_INDEX (alignOf q) ∧
      MEM_PDPT_INDEX (alignOf p) = MEM_PDPT_INDEX (alignOf q) ∧
      MEM_PAGEDIR_INDEX (alignOf p) = MEM_PAGEDIR_INDEX (alignOf q) ∧
      MEM_PAGETBL_INDEX (alignOf p) = MEM_PAGETBL_INDEX (alignOf q)) := by
  rw [alignOf_aligned (by rw [PAGE_SIZE]; exact hpa),
    alignOf_aligned (by rw [PAGE_SIZE]; exact hqa)]
  rintro ⟨h0, h1, h2, h3⟩
  rw [MEM_PML4_INDEX, MEM_PML4_INDEX] at h0
  rw [MEM_PDPT_INDEX, MEM_PDPT_INDEX] at h1
  rw [MEM_PAGEDIR_INDEX, MEM_PAGEDIR_INDEX] at h2
  rw [MEM_PAGETBL_INDEX, MEM_PAGETBL_INDEX] at h3
  simp only [MEM_IS_CANONICAL, Bool.or_eq_true, beq_iff_eq] at hp hq
  have hU : U64 = 18446744073709551616 := rfl
  rw [hU] at hpu hqu
  omega

/-- One iteration of the region-mapping loop (walk with `MEM_CREATE`,
then `mem_allocatePage` with the region's flags) on a well-formed state:
the page's path becomes complete with a present leaf carrying the flag
bits, well-formedness is preserved, at most four fresh blocks are
consumed, the cursors are untouched, and every other already-mapped page
(distinct in some walk index) keeps its path and leaf entry. -/
lemma mapStep (s : MState) (d p f : Nat) (hcd : s.cdir = d) (hInv : WF s d)
    (hca : MEM_IS_CANONICAL p = true)
    (hbud : s.nextBlock + 4 * 4096 ≤ 2 ^ 52)
    (hfree : f &&& MEM_FREE_PAGE = 0) (hnp : f &&& MEM_NOT_PRESENT = 0)
    (hna : f &&& MEM_NOALLOC = 0) :
    ∃ s2, mem_allocatePage (mem_getPage s none p MEM_CREATE).2
        (mem_getPage s none p MEM_CREATE).1 f = s2 ∧
      WF s2 d ∧ s2.cdir = d ∧
      s.nextBlock ≤ s2.nextBlock ∧ s2.nextBlock ≤ s.nextBlock + 4 * 4096 ∧
      s2.dmaRegion = s.dmaRegion ∧ s2.driverRegion = s.driverRegion ∧
      s2.kernelHeap = s.kernelHeap ∧ s2.warns = s.warns ∧ s2.freed = s.freed ∧
      PathOk s2 d p ∧
      (ptCell s2 d p).present = true ∧
      (ptCell s2 d p).usermode = (f &&& MEM_KERNEL == 0) ∧
      (ptCell s2 d p).cache_disable = !(f &&& MEM_NOT_CACHEABLE == 0) ∧
      (ptCell s2 d p).rw = (f &&& MEM_READONLY == 0) ∧
      (∀ q, PathOk s d q → (ptCell s d q).present = true →
        ¬(MEM_PML4_INDEX (alignOf q) = MEM_PML4_INDEX (alignOf p) ∧
          MEM_PDPT_INDEX (alignOf q) = MEM_PDPT_INDEX (alignOf p) ∧
          MEM_PAGEDIR_INDEX (alignOf q) = MEM_PAGEDIR_INDEX (alignOf p) ∧
          MEM_PAGETBL_INDEX (alignOf q) = MEM_PAGETBL_INDEX (alignOf p)) →
        PathOk s2 d q ∧ ptTable s2 d q = ptTable s d q ∧
          ptCell s2 d q = ptCell s d q) := by
  obtain ⟨s1, hrun, hwf1, hpok1, hnb1a, hnb1b, hpres1, hcd1, hdm1, hdr1, hkh1,
    hw1, hf1⟩ :=
    getPage_create s none p d hcd hInv hca (by omega)
  set t3 := ptTable s1 d p with ht3
  set i3 := MEM_PAGETBL_INDEX (alignOf p) with hi3
  have ht3lt : t3 < s1.nextBlock := by
    rw [ht3, ptTable]
    exact hwf1.bound _ _
  obtain ⟨s2, hrun2, hoff2, hp2, hrw2, hum2, hwt2, hcdb2, hsz2, hkeep2, hwf2f,
    hnb2a, hnb2b, hcd2, hdm2, hdr2, hkh2, hw2, hf2⟩ :=
    allocatePage_spec s1 d t3 i3 f hwf1 hfree hnp ht3lt (by omega)
  have hwf2 : WF s2 d := hwf2f hna
  have hoff2t : ∀ a b, a ≠ t3 → s2.mem a b = s1.mem a b := by
    intro a b hne
    exact hoff2 a b (by rintro ⟨rfl, rfl⟩; exact hne rfl)
  obtain ⟨hpok2, hq1, hq2, hq3⟩ :=
    pathOk_after_leaf_write hwf1 hpok1 hpok1 hoff2t
  have hptc2 : ptCell s2 d p = s2.mem t3 i3 := by
    rw [ptCell, hq3]
  refine ⟨s2, ?_, hwf2, by rw [hcd2, hcd1, hcd], by omega, by omega,
    by rw [hdm2, hdm1], by rw [hdr2, hdr1], by rw [hkh2, hkh1],
    by rw [hw2, hw1], by rw [hf2, hf1], hpok2,
    by rw [hptc2]; exact hp2, by rw [hptc2]; exact hum2,
    by rw [hptc2]; exact hcdb2, by rw [hptc2]; exact hrw2, ?_⟩
  · rw [hrun]
    exact hrun2
  · intro q hpokq hptq hquad
    -- the walk preserves q's path and leaf, then the leaf write misses both
    obtain ⟨hpokq1, hc1, ht1, hc2, ht2, hc3, htq3⟩ := pathOk_mono hpres1 hpokq
    have hptq1 : ptCell s1 d q = ptCell s d q := by
      rw [ptCell, ptCell, htq3]
      exact hpres1 _ _ hptq
    have hptq1p : (ptCell s1 d q).present = true := by
      rw [hptq1]
      exact hptq
    obtain ⟨hpokq2, _, _, htq32⟩ :=
      pathOk_after_leaf_write hwf1 hpok1 hpokq1 hoff2t
    have hcellne : ¬(ptTable s1 d q = t3 ∧ MEM_PAGETBL_INDEX (alignOf q) = i3) := by
      rintro ⟨hteq, hieq⟩
      have hchase := chase_tables hwf1 hpokq1 hpok1 hteq
      exact hquad ⟨hchase.1, hchase.2.1, hchase.2.2, by rw [hi3] at hieq; exact hieq⟩
    have hleaf2 : ptCell s2 d q = ptCell s1 d q := by
      rw [ptCell, ptCell, htq32]
      exact hoff2 _ _ hcellne
    exact ⟨hpokq2, by rw [htq32, htq3], by rw [hleaf2, hptq1]⟩

/-- The region-mapping loop on a well-formed state: every page of the
range ends with a complete path and a present leaf carrying the region
flags; well-formedness, the cursors and the warning counter are
preserved; and any aligned canonical page outside the range keeps its
path and leaf entry. -/
lemma mapRange_spec (f : Nat) (hfree : f &&& MEM_FREE_PAGE = 0)
    (hnp : f &&& MEM_NOT_PRESENT = 0) (hna : f &&& MEM_NOALLOC = 0) :
    ∀ count s start d, s.cdir = d → WF s d → start % 4096 = 0 →
    (∀ j, j < count → MEM_IS_CANONICAL (start + 4096 * j) = true) →
    (∀ j, j < count → start + 4096 * j < U64) →
    s.nextBlock + 4 * 4096 * count ≤ 2 ^ 52 →
    ∃ s', mapRange s start count f = s' ∧ WF s' d ∧ s'.cdir = d ∧
      s.nextBlock ≤ s'.nextBlock ∧
      s'.nextBlock ≤ s.nextBlock + 4 * 4096 * count ∧
      s'.dmaRegion = s.dmaRegion ∧ s'.driverRegion = s.driverRegion ∧
      s'.kernelHeap = s.kernelHeap ∧ s'.warns = s.warns ∧ s'.freed = s.freed ∧
      (∀ j, j < count → PathOk s' d (start + 4096 * j) ∧
        (ptCell s' d (start + 4096 * j)).present = true ∧
        (ptCell s' d (start + 4096 * j)).usermode = (f &&& MEM_KERNEL == 0) ∧
        (ptCell s' d (start + 4096 * j)).cache_disable =
          !(f &&& MEM_NOT_CACHEABLE == 0) ∧
        (ptCell s' d (start + 4096 * j)).rw = (f &&& MEM_READONLY == 0)) ∧
      (∀ q, MEM_IS_CANONICAL q = true → q < U64 → q % 4096 = 0 →
        (∀ j, j < count → q ≠ start + 4096 * j) →
        PathOk s d q → (ptCell s d q).present = true →
        PathOk s' d q ∧ ptTable s' d q = ptTable s d q ∧
          ptCell s' d q = ptCell s d q) := by
  intro count
  induction count with
  | zero =>
    intro s start d hcd hInv hal hca hlt hbud
    exact ⟨s, rfl, hInv, hcd, le_refl _, by omega, rfl, rfl, rfl, rfl, rfl,
      fun j hj => absurd hj (by omega),
      fun q _ _ _ _ hp hc => ⟨hp, rfl, rfl⟩⟩
  | succ n ih =>
    intro s start d hcd hInv hal hca hlt hbud
    have hca0 : MEM_IS_CANONICAL start = true := by
      have := hca 0 (by omega)
      simpa using this
    have hlt0 : start < U64 := by
      have := hlt 0 (by omega)
      simpa using this
    obtain ⟨s2, hrun2, hwf2, hcd2, hnb2a, hnb2b, hdm2, hdr2, hkh2, hw2, hf2,
      hpok2, hpp2, hpu2, hpc2, hpr2, hprev2⟩ :=
      mapStep s d start f hcd hInv hca0 (by omega) hfree hnp hna
    obtain ⟨s', hrun', hwf', hcd', hnb'a, hnb'b, hdm', hdr', hkh', hw', hf',
      hpages', hprev'⟩ :=
      ih s2 (start + 4096) d hcd2 hwf2 (by omega)
        (fun j hj => by
          have := hca (j + 1) (by omega)
          have harith : start + 4096 + 4096 * j = start + 4096 * (j + 1) := by ring
          rw [harith]
          exact this)
        (fun j hj => by
          have := hlt (j + 1) (by omega)
          have harith : start + 4096 + 4096 * j = start + 4096 * (j + 1) := by ring
          rw [harith]
          exact this)
        (by omega)
    have hrunall : mapRange s start (n + 1) f = s' := by
      rw [mapRange]
      rw [hrun2]
      simpa [PAGE_SIZE] using hrun'
    refine ⟨s', hrunall, hwf', hcd', by omega, by omega,
      by rw [hdm', hdm2], by rw [hdr', hdr2], by rw [hkh', hkh2],
      by rw [hw', hw2], by rw [hf', hf2], ?_, ?_⟩
    · intro j hj
      rcases Nat.eq_zero_or_pos j with rfl | hjpos
      · -- page 0: mapped by the step, preserved by the rest of the loop
        have hne : ∀ j2, j2 < n → start ≠ start + 4096 + 4096 * j2 := by
          intro j2 _
          omega
        have := hprev' start hca0 hlt0 hal hne hpok2 hpp2
        simp only [Nat.mul_zero, Nat.add_zero]
        exact ⟨this.1, by rw [this.2.2]; exact hpp2, by rw [this.2.2]; exact hpu2,
          by rw [this.2.2]; exact hpc2, by rw [this.2.2]; exact hpr2⟩
      · obtain ⟨j2, rfl⟩ : ∃ j2, j = j2 + 1 := ⟨j - 1, by omega⟩
        have harith : start + 4096 * (j2 + 1) = start + 4096 + 4096 * j2 := by
          ring
        rw [harith]
        exact hpages' j2 (by omega)
    · intro q hcaq hltq halq hneq hpokq hpcq
      have hquad : ¬(MEM_PML4_INDEX (alignOf q) = MEM_PML4_INDEX (alignOf start) ∧
          MEM_PDPT_INDEX (alignOf q) = MEM_PDPT_INDEX (alignOf start) ∧
          MEM_PAGEDIR_INDEX (alignOf q) = MEM_PAGEDIR_INDEX (alignOf start) ∧
          MEM_PAGETBL_INDEX (alignOf q) = MEM_PAGETBL_INDEX (alignOf start)) :=
        quad_ne_of_page_ne hcaq hca0 hltq hlt0 halq hal
          (by have := hneq 0 (by omega); simpa using this)
      obtain ⟨hpokq2, htq2, hcq2⟩ := hprev2 q hpokq hpcq hquad
      have hneq' : ∀ j, j < n → q ≠ start + 4096 + 4096 * j := by
        intro j hj
        have := hneq (j + 1) (by omega)
        have harith : start + 4096 * (j + 1) = start + 4096 + 4096 * j := by ring
        rw [harith] at this
        exact this
      obtain ⟨hpokq', htq', hcq'⟩ :=
        hprev' q hcaq hltq halq hneq' hpokq2 (by rw [hcq2]; exact hpcq)
      exact ⟨hpokq', by rw [htq', htq2], by rw [hcq', hcq2]⟩

/-- Every address in the top 2^47 bytes is canonical. -/
lemma canonical_high {a : Nat} (h1 : 0xFFFF800000000000 ≤ a) (h2 : a < U64) :
    MEM_IS_CANONICAL a = true := by
  simp only [MEM_IS_CANONICAL, Bool.or_eq_true, beq_iff_eq]
  right
  have hU : U64 = 18446744073709551616 := rfl
  rw [hU] at h2
  omega

/-- 64-bit subtraction agrees with truncated subtraction when it does not
wrap. -/
lemma usub_exact {a b : Nat} (hba : b ≤ a) (ha : a < U64) : usub a b = a - b := by
  rw [usub]
  have hU : U64 = 18446744073709551616 := rfl
  rw [hU] at ha ⊢
  omega

/-- Below the 64-bit wrap, the region allocators' size alignment is the
genuine round-up to a page multiple. -/
lemma alignedSize_eq {size : Nat} (h : size + 4095 < U64) :
    alignedSize size = (size + 4095) / 4096 * 4096 := by
  rw [alignedSize, MEM_ALIGN_PAGE, PAGE_SIZE]
  have hU : U64 = 18446744073709551616 := rfl
  rw [hU]
  rw [hU] at h
  split_ifs with hc
  · omega
  · omega

/-- Specification of `mem_allocateDMA` in the non-fatal case on a
well-formed state: it returns the old cursor, advances the cursor by the
aligned size, and maps every page of the range kernel-mode, uncacheable,
writable and present. -/
lemma allocDMA_spec (s : MState) (size : Nat) (hInv : WF s s.cdir)
    (_hwrap : size + 4095 < U64)
    (hcur1 : MEM_DMA_REGION ≤ s.dmaRegion)
    (hcur2 : s.dmaRegion % 4096 = 0)
    (hfit : s.dmaRegion + alignedSize size ≤ MEM_DMA_REGION + MEM_DMA_REGION_SIZE)
    (hbud : s.nextBlock + 4 * 4096 * (alignedSize size / 4096) ≤ 2 ^ 52) :
    ∃ s', mem_allocateDMA s size = some (s.dmaRegion, s') ∧
      WF s' s.cdir ∧ s'.cdir = s.cdir ∧
      s'.dmaRegion = s.dmaRegion + alignedSize size ∧
      s'.driverRegion = s.driverRegion ∧ s'.kernelHeap = s.kernelHeap ∧
      s'.warns = s.warns ∧ s'.freed = s.freed ∧
      s.nextBlock ≤ s'.nextBlock ∧
      s'.nextBlock ≤ s.nextBlock + 4 * 4096 * (alignedSize size / 4096) ∧
      (∀ j, j < alignedSize size / 4096 →
        PathOk s' s.cdir (s.dmaRegion + 4096 * j) ∧
        (ptCell s' s.cdir (s.dmaRegion + 4096 * j)).present = true ∧
        (ptCell s' s.cdir (s.dmaRegion + 4096 * j)).usermode = false ∧
        (ptCell s' s.cdir (s.dmaRegion + 4096 * j)).cache_disable = true ∧
        (ptCell s' s.cdir (s.dmaRegion + 4096 * j)).rw = true) := by
  have hU : U64 = 18446744073709551616 := rfl
  have hlim : MEM_DMA_REGION + MEM_DMA_REGION_SIZE < U64 := by decide
  have hsum : s.dmaRegion + alignedSize size < U64 := by omega
  have hmodsum : (s.dmaRegion + alignedSize size) % U64 =
      s.dmaRegion + alignedSize size := Nat.mod_eq_of_lt hsum
  have hcount : pageCount s.dmaRegion (alignedSize size) =
      alignedSize size / 4096 := by
    rw [pageCount, PAGE_SIZE, if_pos hsum]
  obtain ⟨s1, hrun1, hwf1, hcd1, hnb1a, hnb1b, hdm1, hdr1, hkh1, hw1, hf1,
    hpages1, _⟩ :=
    mapRange_spec (MEM_KERNEL ||| MEM_NOT_CACHEABLE) (by decide) (by decide)
      (by decide) (alignedSize size / 4096) s s.dmaRegion s.cdir rfl hInv hcur2
      (fun j hj => canonical_high
        (by
          have : (0xFFFF800000000000 : Nat) ≤ MEM_DMA_REGION := by decide
          omega)
        (by
          have h4 : 4096 * j < alignedSize size := by
            have := Nat.div_mul_le_self (alignedSize size) 4096
            have h5 : 4096 * (j + 1) ≤ alignedSize size / 4096 * 4096 := by
              have := (Nat.le_div_iff_mul_le (by norm_num)).mp (by omega : j + 1 ≤ alignedSize size / 4096)
              omega
            omega
          omega))
      (fun j hj => by
        have h4 : 4096 * j < alignedSize size := by
          have h5 : 4096 * (j + 1) ≤ alignedSize size / 4096 * 4096 := by
            have := (Nat.le_div_iff_mul_le (by norm_num : (0:Nat) < 4096)).mp (by omega : j + 1 ≤ alignedSize size / 4096)
            omega
          have := Nat.div_mul_le_self (alignedSize size) 4096
          omega
        omega)
      hbud
  refine ⟨{ s1 with dmaRegion := (s1.dmaRegion + alignedSize size) % U64 },
    ?_, ?_, ?_, ?_, ?_, ?_, ?_, ?_, ?_, ?_, ?_⟩
  · rw [mem_allocateDMA]
    simp only []
    rw [if_neg (by omega)]
    rw [hcount, hrun1]
    have hd1 : s1.dmaRegion = s.dmaRegion := hdm1
    rw [hd1, hmodsum]
    have : usub (s.dmaRegion + alignedSize size) (alignedSize size) =
        s.dmaRegion := by
      rw [usub_exact (by omega) hsum]
      omega
    rw [this]
  · exact ⟨hwf1.nosize, hwf1.bound, hwf1.inj, hwf1.nodir, hwf1.zeroaddr,
      hwf1.dlt, hwf1.align, hwf1.fresh⟩
  · exact hcd1
  · rw [hdm1, hmodsum]
  · exact hdr1
  · exact hkh1
  · exact hw1
  · exact hf1
  · exact hnb1a
  · exact hnb1b
  · intro j hj
    exact hpages1 j hj

/-- Specification of `mem_mapDriver` in the non-fatal case on a
well-formed state: it returns the old cursor, advances the cursor by the
aligned size, and maps every page of the range kernel-mode, cacheable,
writable and present. -/
lemma allocDriver_spec (s : MState) (size : Nat) (hInv : WF s s.cdir)
    (_hwrap : size + 4095 < U64)
    (hcur1 : MEM_DRIVER_REGION ≤ s.driverRegion)
    (hcur2 : s.driverRegion % 4096 = 0)
    (hfit : s.driverRegion + alignedSize size ≤ MEM_DRIVER_REGION + MEM_DRIVER_REGION_SIZE)
    (hbud : s.nextBlock + 4 * 4096 * (alignedSize size / 4096) ≤ 2 ^ 52) :
    ∃ s', mem_mapDriver s size = some (s.driverRegion, s') ∧
      WF s' s.cdir ∧ s'.cdir = s.cdir ∧
      s'.driverRegion = s.driverRegion + alignedSize size ∧
      s'.dmaRegion = s.dmaRegion ∧ s'.kernelHeap = s.kernelHeap ∧
      s'.warns = s.warns ∧ s'.freed = s.freed ∧
      s.nextBlock ≤ s'.nextBlock ∧
      s'.nextBlock ≤ s.nextBlock + 4 * 4096 * (alignedSize size / 4096) ∧
      (∀ j, j < alignedSize size / 4096 →
        PathOk s' s.cdir (s.driverRegion + 4096 * j) ∧
        (ptCell s' s.cdir (s.driverRegion + 4096 * j)).present = true ∧
        (ptCell s' s.cdir (s.driverRegion + 4096 * j)).usermode = false ∧
        (ptCell s' s.cdir (s.driverRegion + 4096 * j)).cache_disable = false ∧
        (ptCell s' s.cdir (s.driverRegion + 4096 * j)).rw = true) := by
  have hU : U64 = 18446744073709551616 := rfl
  have hlim : MEM_DRIVER_REGION + MEM_DRIVER_REGION_SIZE < U64 := by decide
  have hsum : s.driverRegion + alignedSize size < U64 := by omega
  have hmodsum : (s.driverRegion + alignedSize size) % U64 =
      s.driverRegion + alignedSize size := Nat.mod_eq_of_lt hsum
  have hcount : pageCount s.driverRegion (alignedSize size) =
      alignedSize size / 4096 := by
    rw [pageCount, PAGE_SIZE, if_pos hsum]
  obtain ⟨s1, hrun1, hwf1, hcd1, hnb1a, hnb1b, hdm1, hdr1, hkh1, hw1, hf1,
    hpages1, _⟩ :=
    mapRange_spec MEM_KERNEL (by decide) (by decide)
      (by decide) (alignedSize size / 4096) s s.driverRegion s.cdir rfl hInv hcur2
      (fun j hj => canonical_high
        (by
          have : (0xFFFF800000000000 : Nat) ≤ MEM_DRIVER_REGION := by decide
          omega)
        (by
          have h4 : 4096 * j < alignedSize size := by
            have := Nat.div_mul_le_self (alignedSize size) 4096
            have h5 : 4096 * (j + 1) ≤ alignedSize size / 4096 * 4096 := by
              have := (Nat.le_div_iff_mul_le (by norm_num)).mp (by omega : j + 1 ≤ alignedSize size / 4096)
              omega
            omega
          omega))
      (fun j hj => by
        have h4 : 4096 * j < alignedSize size := by
          have h5 : 4096 * (j + 1) ≤ alignedSize size / 4096 * 4096 := by
            have := (Nat.le_div_iff_mul_le (by norm_num : (0:Nat) < 4096)).mp (by omega : j + 1 ≤ alignedSize size / 4096)
            omega
          have := Nat.div_mul_le_self (alignedSize size) 4096
          omega
        omega)
      hbud
  refine ⟨{ s1 with driverRegion := (s1.driverRegion + alignedSize size) % U64 },
    ?_, ?_, ?_, ?_, ?_, ?_, ?_, ?_, ?_, ?_, ?_⟩
  · rw [mem_mapDriver]
    simp only []
    rw [if_neg (by omega)]
    rw [hcount, hrun1]
    have hd1 : s1.driverRegion = s.driverRegion := hdr1
    rw [hd1, hmodsum]
    have : usub (s.driverRegion + alignedSize size) (alignedSize size) =
        s.driverRegion := by
      rw [usub_exact (by omega) hsum]
      omega
    rw [this]
  · exact ⟨hwf1.nosize, hwf1.bound, hwf1.inj, hwf1.nodir, hwf1.zeroaddr,
      hwf1.dlt, hwf1.align, hwf1.fresh⟩
  · exact hcd1
  · rw [hdr1, hmodsum]
  · exact hdm1
  · exact hkh1
  · exact hw1
  · exact hf1
  · exact hnb1a
  · exact hnb1b
  · intro j hj
    exact hpages1 j hj

/-- The value a leaf cell holds after `mem_freePage`: cleared permission
bits and a zero frame, with the remaining bits stale. -/
def freeCell (s : MState) (t3 i3 : Nat) : page_bits :=
  { present := false, rw := false, usermode := false,
    writethrough := (s.mem t3 i3).writethrough,
    cache_disable := (s.mem t3 i3).cache_disable,
    size := (s.mem t3 i3).size, address := 0 }

/-- Well-formedness survives clearing one cell below the bump pointer to
a non-present entry with a zero frame. -/
lemma wf_clear_cell {s s' : MState} {d t3 i3 : Nat} (hInv : WF s d)
    (e' : page_bits)
    (hmem : ∀ a b, s'.mem a b = if a = t3 ∧ b = i3 then e' else s.mem a b)
    (hnb : s'.nextBlock = s.nextBlock) (ht3 : t3 < s.nextBlock)
    (hsize : e'.size = false) (hpres : e'.present = false)
    (haddr : e'.address = 0) : WF s' d := by
  refine ⟨?_, ?_, ?_, ?_, ?_, ?_, ?_, ?_⟩
  · intro a b
    rw [hmem]
    split_ifs with c1
    · exact hsize
    · exact hInv.nosize a b
  · intro a b
    rw [hmem, hnb]
    split_ifs with c1
    · rw [haddr]
      have := hInv.dlt
      omega
    · exact hInv.bound a b
  · intro a b a' b' hp1 hp2 hadr
    rw [hmem] at hp1 hadr
    rw [hmem] at hp2 hadr
    by_cases c1 : a = t3 ∧ b = i3
    · rw [if_pos c1] at hp1
      rw [hpres] at hp1
      exact absurd hp1 (by decide)
    · rw [if_neg c1] at hp1 hadr
      by_cases c2 : a' = t3 ∧ b' = i3
      · rw [if_pos c2] at hp2
        rw [hpres] at hp2
        exact absurd hp2 (by decide)
      · rw [if_neg c2] at hp2 hadr
        exact hInv.inj a b a' b' hp1 hp2 hadr
  · intro a b hp1
    rw [hmem] at hp1 ⊢
    by_cases c1 : a = t3 ∧ b = i3
    · rw [if_pos c1] at hp1
      rw [hpres] at hp1
      exact absurd hp1 (by decide)
    · rw [if_neg c1] at hp1 ⊢
      exact hInv.nodir a b hp1
  · intro a b hp1
    rw [hmem] at hp1 ⊢
    by_cases c1 : a = t3 ∧ b = i3
    · rw [if_pos c1]
      exact haddr
    · rw [if_neg c1] at hp1 ⊢
      exact hInv.zeroaddr a b hp1
  · rw [hnb]
    exact hInv.dlt
  · rw [hnb]
    exact hInv.align
  · intro a b hge
    rw [hnb] at hge
    rw [hmem]
    have c1 : ¬(a = t3 ∧ b = i3) := by
      rintro ⟨rfl, rfl⟩
      omega
    rw [if_neg c1]
    exact hInv.fresh a b hge

/-- Specification of `mem_freePage` at a leaf cell: only that cell
changes — its permission bits clear and its frame is zeroed and pushed
onto the PFA free list — and well-formedness survives. -/
lemma freePage_spec (s : MState) (d t3 i3 : Nat) (hInv : WF s d)
    (ht3 : t3 < s.nextBlock) :
    ∃ s', mem_freePage s (some (t3, i3)) = s' ∧
      (∀ a b, ¬(a = t3 ∧ b = i3) → s'.mem a b = s.mem a b) ∧
      (s'.mem t3 i3).present = false ∧ (s'.mem t3 i3).address = 0 ∧
      WF s' d ∧ s'.nextBlock = s.nextBlock ∧ s'.cdir = s.cdir ∧
      s'.dmaRegion = s.dmaRegion ∧ s'.driverRegion = s.driverRegion ∧
      s'.kernelHeap = s.kernelHeap ∧ s'.warns = s.warns := by
  refine ⟨mem_freePage s (some (t3, i3)), rfl, ?_⟩
  have hmem : ∀ a b, (mem_freePage s (some (t3, i3))).mem a b =
      if a = t3 ∧ b = i3 then freeCell s t3 i3 else s.mem a b := by
    intro a b
    rw [mem_freePage]
    simp only [pmm_freeBlock, writePage_mem]
    simp [freeCell]
    split_ifs <;> rfl
  have hflds : (mem_freePage s (some (t3, i3))).nextBlock = s.nextBlock ∧
      (mem_freePage s (some (t3, i3))).cdir = s.cdir ∧
      (mem_freePage s (some (t3, i3))).dmaRegion = s.dmaRegion ∧
      (mem_freePage s (some (t3, i3))).driverRegion = s.driverRegion ∧
      (mem_freePage s (some (t3, i3))).kernelHeap = s.kernelHeap ∧
      (mem_freePage s (some (t3, i3))).warns = s.warns := by
    rw [mem_freePage]
    exact ⟨rfl, rfl, rfl, rfl, rfl, rfl⟩
  have hcell : (mem_freePage s (some (t3, i3))).mem t3 i3 = freeCell s t3 i3 := by
    rw [hmem]
    simp
  refine ⟨?_, by rw [hcell]; rfl, by rw [hcell]; rfl,
    wf_clear_cell hInv (freeCell s t3 i3) hmem hflds.1 ht3 (hInv.nosize t3 i3)
      rfl rfl,
    hflds.1, hflds.2.1, hflds.2.2.1, hflds.2.2.2.1, hflds.2.2.2.2.1,
    hflds.2.2.2.2.2⟩
  intro a b hne
  rw [hmem, if_neg hne]

/-- One iteration of the region-free loop (walk with `MEM_DEFAULT`, then
`mem_freePage`) on a page with a complete path: the leaf becomes
non-present, the path and everything but that one leaf cell survive, and
any page distinct in some walk index keeps its path and leaf entry. -/
lemma freeStep (s : MState) (d p : Nat) (hcd : s.cdir = d) (hInv : WF s d)
    (hca : MEM_IS_CANONICAL p = true) (hpok : PathOk s d p) :
    ∃ s2, mem_freePage (mem_getPage s none p MEM_DEFAULT).2
        (mem_getPage s none p MEM_DEFAULT).1 = s2 ∧
      WF s2 d ∧ s2.cdir = d ∧ s2.nextBlock = s.nextBlock ∧
      s2.dmaRegion = s.dmaRegion ∧ s2.driverRegion = s.driverRegion ∧
      s2.kernelHeap = s.kernelHeap ∧ s2.warns = s.warns ∧
      PathOk s2 d p ∧ (ptCell s2 d p).present = false ∧
      (∀ q, PathOk s d q →
        ¬(MEM_PML4_INDEX (alignOf q) = MEM_PML4_INDEX (alignOf p) ∧
          MEM_PDPT_INDEX (alignOf q) = MEM_PDPT_INDEX (alignOf p) ∧
          MEM_PAGEDIR_INDEX (alignOf q) = MEM_PAGEDIR_INDEX (alignOf p) ∧
          MEM_PAGETBL_INDEX (alignOf q) = MEM_PAGETBL_INDEX (alignOf p)) →
        PathOk s2 d q ∧ ptTable s2 d q = ptTable s d q ∧
          ptCell s2 d q = ptCell s d q) := by
  have hgd : (none : Option Nat).getD s.cdir = d := hcd
  have hwalk := getPage_of_path hca hgd hpok
  set t3 := ptTable s d p with ht3
  set i3 := MEM_PAGETBL_INDEX (alignOf p) with hi3
  have ht3lt : t3 < s.nextBlock := by
    rw [ht3, ptTable]
    exact hInv.bound _ _
  obtain ⟨s2, hrun2, hoff2, hp2, ha2, hwf2, hnb2, hcd2, hdm2, hdr2, hkh2,
    hw2⟩ := freePage_spec s d t3 i3 hInv ht3lt
  have hoff2t : ∀ a b, a ≠ t3 → s2.mem a b = s.mem a b := by
    intro a b hne
    exact hoff2 a b (by rintro ⟨rfl, rfl⟩; exact hne rfl)
  obtain ⟨hpok2, hq1, hq2, hq3⟩ := pathOk_after_leaf_write hInv hpok hpok hoff2t
  refine ⟨s2, ?_, hwf2, by rw [hcd2, hcd], hnb2, hdm2, hdr2, hkh2, hw2, hpok2,
    ?_, ?_⟩
  · rw [hwalk]
    exact hrun2
  · rw [ptCell, hq3]
    exact hp2
  · intro q hpokq hquad
    obtain ⟨hpokq2, _, _, htq32⟩ := pathOk_after_leaf_write hInv hpok hpokq hoff2t
    have hcellne : ¬(ptTable s d q = t3 ∧ MEM_PAGETBL_INDEX (alignOf q) = i3) := by
      rintro ⟨hteq, hieq⟩
      have hchase := chase_tables hInv hpokq hpok hteq
      exact hquad ⟨hchase.1, hchase.2.1, hchase.2.2, by rw [hi3] at hieq; exact hieq⟩
    have hleaf2 : ptCell s2 d q = ptCell s d q := by
      rw [ptCell, ptCell, htq32]
      exact hoff2 _ _ hcellne
    exact ⟨hpokq2, htq32, hleaf2⟩

/-- The region-free loop on a well-formed state whose range pages all
have complete paths: every leaf in the range becomes non-present, the
paths survive, nothing else changes, and pages outside the range keep
their paths and leaf entries. -/
lemma freeRange_spec :
    ∀ count s start d, s.cdir = d → WF s d → start % 4096 = 0 →
    (∀ j, j < count → MEM_IS_CANONICAL (start + 4096 * j) = true) →
    (∀ j, j < count → start + 4096 * j < U64) →
    (∀ j, j < count → PathOk s d (start + 4096 * j)) →
    ∃ s', freeRange s start count = s' ∧ WF s' d ∧ s'.cdir = d ∧
      s'.nextBlock = s.nextBlock ∧
      s'.dmaRegion = s.dmaRegion ∧ s'.driverRegion = s.driverRegion ∧
      s'.kernelHeap = s.kernelHeap ∧ s'.warns = s.warns ∧
      (∀ j, j < count → PathOk s' d (start + 4096 * j) ∧
        (ptCell s' d (start + 4096 * j)).present = false) ∧
      (∀ q, MEM_IS_CANONICAL q = true → q < U64 → q % 4096 = 0 →
        (∀ j, j < count → q ≠ start + 4096 * j) → PathOk s d q →
        PathOk s' d q ∧ ptTable s' d q = ptTable s d q ∧
          ptCell s' d q = ptCell s d q) := by
  intro count
  induction count with
  | zero =>
    intro s start d hcd hInv hal hca hlt hpok
    exact ⟨s, rfl, hInv, hcd, rfl, rfl, rfl, rfl, rfl,
      fun j hj => absurd hj (by omega), fun q _ _ _ _ hp => ⟨hp, rfl, rfl⟩⟩
  | succ n ih =>
    intro s start d hcd hInv hal hca hlt hpok
    have hca0 : MEM_IS_CANONICAL start = true := by
      have := hca 0 (by omega)
      simpa using this
    have hlt0 : start < U64 := by
      have := hlt 0 (by omega)
      simpa using this
    have hpok0 : PathOk s d start := by
      have := hpok 0 (by omega)
      simpa using this
    obtain ⟨s2, hrun2, hwf2, hcd2, hnb2, hdm2, hdr2, hkh2, hw2, hpok2, hpp2,
      hprev2⟩ := freeStep s d start hcd hInv hca0 hpok0
    have hpokrest : ∀ j, j < n → PathOk s2 d (start + 4096 + 4096 * j) := by
      intro j hj
      have harith : start + 4096 + 4096 * j = start + 4096 * (j + 1) := by ring
      rw [harith]
      have hcaj : MEM_IS_CANONICAL (start + 4096 * (j + 1)) = true :=
        hca (j + 1) (by omega)
      have hltj : start + 4096 * (j + 1) < U64 := hlt (j + 1) (by omega)
      have hquad := quad_ne_of_page_ne hcaj hca0 hltj hlt0 (by omega) hal
        (by omega)
      exact (hprev2 _ (hpok (j + 1) (by omega)) hquad).1
    obtain ⟨s', hrun', hwf', hcd', hnb', hdm', hdr', hkh', hw', hpages',
      hprev'⟩ :=
      ih s2 (start + 4096) d hcd2 hwf2 (by omega)
        (fun j hj => by
          have harith : start + 4096 + 4096 * j = start + 4096 * (j + 1) := by
            ring
          rw [harith]
          exact hca (j + 1) (by omega))
        (fun j hj => by
          have harith : start + 4096 + 4096 * j = start + 4096 * (j + 1) := by
            ring
          rw [harith]
          exact hlt (j + 1) (by omega))
        hpokrest
    have hrunall : freeRange s start (n + 1) = s' := by
      rw [freeRange]
      rw [hrun2]
      simpa [PAGE_SIZE] using hrun'
    refine ⟨s', hrunall, hwf', hcd', by rw [hnb', hnb2], by rw [hdm', hdm2],
      by rw [hdr', hdr2], by rw [hkh', hkh2], by rw [hw', hw2], ?_, ?_⟩
    · intro j hj
      rcases Nat.eq_zero_or_pos j with rfl | hjpos
      · have hne : ∀ j2, j2 < n → start ≠ start + 4096 + 4096 * j2 := by
          intro j2 _
          omega
        have := hprev' start hca0 hlt0 hal hne hpok2
        simp only [Nat.mul_zero, Nat.add_zero]
        exact ⟨this.1, by rw [this.2.2]; exact hpp2⟩
      · obtain ⟨j2, rfl⟩ : ∃ j2, j = j2 + 1 := ⟨j - 1, by omega⟩
        have harith : start + 4096 * (j2 + 1) = start + 4096 + 4096 * j2 := by
          ring
        rw [harith]
        exact hpages' j2 (by omega)
    · intro q hcaq hltq halq hneq hpokq
      have hquad := quad_ne_of_page_ne hcaq hca0 hltq hlt0 halq hal
        (by have := hneq 0 (by omega); simpa using this)
      obtain ⟨hpokq2, htq2, hcq2⟩ := hprev2 q hpokq hquad
      have hneq' : ∀ j, j < n → q ≠ start + 4096 + 4096 * j := by
        intro j hj
        have := hneq (j + 1) (by omega)
        have harith : start + 4096 * (j + 1) = start + 4096 + 4096 * j := by
          ring
        rw [harith] at this
        exact this
      obtain ⟨hpokq', htq', hcq'⟩ := hprev' q hcaq hltq halq hneq' hpokq2
      exact ⟨hpokq', by rw [htq', htq2], by rw [hcq', hcq2]⟩

/-- Pages counted by a region loop lie inside the aligned size. -/
lemma page_off_lt {j n : Nat} (hj : j < n / 4096) : 4096 * j + 4096 ≤ n := by
  have h := (Nat.le_div_iff_mul_le (by norm_num : 0 < 4096)).mp
    (by omega : j + 1 ≤ n / 4096)
  omega

/-- Specification of `mem_freeDMA` in the matched (LIFO) case on a
well-formed state whose range pages have complete paths: the cursor
retracts to the base, no warning is logged, and every page of the range
becomes non-present. -/
lemma freeDMA_spec (s : MState) (base size : Nat) (hInv : WF s s.cdir)
    (hb0 : base ≠ 0) (hs0 : size ≠ 0)
    (hbase1 : MEM_DMA_REGION ≤ base) (hbase2 : base % 4096 = 0)
    (hcur : s.dmaRegion = base + alignedSize size)
    (hfit : s.dmaRegion ≤ MEM_DMA_REGION + MEM_DMA_REGION_SIZE)
    (hpok : ∀ j, j < alignedSize size / 4096 →
      PathOk s s.cdir (base + 4096 * j)) :
    ∃ s', mem_freeDMA s base size = s' ∧ s'.dmaRegion = base ∧
      s'.driverRegion = s.driverRegion ∧ s'.kernelHeap = s.kernelHeap ∧
      s'.warns = s.warns ∧ s'.cdir = s.cdir ∧ WF s' s.cdir ∧
      (∀ j, j < alignedSize size / 4096 →
        PathOk s' s.cdir (base + 4096 * j) ∧
        (ptCell s' s.cdir (base + 4096 * j)).present = false) := by
  have hU : U64 = 18446744073709551616 := rfl
  have hlim : MEM_DMA_REGION + MEM_DMA_REGION_SIZE < U64 := by decide
  have hcurlt : s.dmaRegion < U64 := by omega
  have husub : usub s.dmaRegion (alignedSize size) = base := by
    rw [usub_exact (by omega) hcurlt]
    omega
  have hcount : pageCount base (alignedSize size) = alignedSize size / 4096 := by
    rw [pageCount, PAGE_SIZE, if_pos (by omega)]
  set s1 : MState := { s with dmaRegion := usub s.dmaRegion (alignedSize size) }
    with hs1
  have hs1cd : s1.cdir = s.cdir := rfl
  have hs1wf : WF s1 s.cdir :=
    ⟨hInv.nosize, hInv.bound, hInv.inj, hInv.nodir, hInv.zeroaddr, hInv.dlt,
      hInv.align, hInv.fresh⟩
  have hs1dma : s1.dmaRegion = base := by
    rw [hs1]
    exact husub
  obtain ⟨s', hrun', hwf', hcd', hnb', hdm', hdr', hkh', hw', hpages', _⟩ :=
    freeRange_spec (alignedSize size / 4096) s1 base s.cdir hs1cd hs1wf hbase2
      (fun j hj => canonical_high
        (by
          have : (0xFFFF800000000000 : Nat) ≤ MEM_DMA_REGION := by decide
          omega)
        (by
          have := page_off_lt hj
          omega))
      (fun j hj => by
        have := page_off_lt hj
        omega)
      (fun j hj => hpok j hj)
  refine ⟨s', ?_, by rw [hdm', hs1dma], by rw [hdr'], by rw [hkh'],
    by rw [hw'], by rw [hcd'], hwf', hpages'⟩
  have hcount1 : pageCount s1.dmaRegion (alignedSize size) =
      alignedSize size / 4096 := by
    rw [hs1dma]
    exact hcount
  have hrun2 : freeRange s1 s1.dmaRegion
      (pageCount s1.dmaRegion (alignedSize size)) = s' := by
    rw [hs1dma, hcount]
    exact hrun'
  rw [mem_freeDMA]
  rw [if_neg (by push_neg; exact ⟨hb0, hs0⟩)]
  simp only []
  rw [if_pos husub.symm]
  exact hrun2

/-- Specification of `mem_unmapDriver` in the matched (LIFO) case on a
well-formed state whose range pages have complete paths: the cursor
retracts to the base, no warning is logged, and every page of the range
becomes non-present.  Unlike the DMA path there is no NULL/zero guard. -/
lemma freeDriver_spec (s : MState) (base size : Nat) (hInv : WF s s.cdir)
    (hbase1 : MEM_DRIVER_REGION ≤ base) (hbase2 : base % 4096 = 0)
    (hcur : s.driverRegion = base + alignedSize size)
    (hfit : s.driverRegion ≤ MEM_DRIVER_REGION + MEM_DRIVER_REGION_SIZE)
    (hpok : ∀ j, j < alignedSize size / 4096 →
      PathOk s s.cdir (base + 4096 * j)) :
    ∃ s', mem_unmapDriver s base size = s' ∧ s'.driverRegion = base ∧
      s'.dmaRegion = s.dmaRegion ∧ s'.kernelHeap = s.kernelHeap ∧
      s'.warns = s.warns ∧ s'.cdir = s.cdir ∧ WF s' s.cdir ∧
      (∀ j, j < alignedSize size / 4096 →
        PathOk s' s.cdir (base + 4096 * j) ∧
        (ptCell s' s.cdir (base + 4096 * j)).present = false) := by
  have hU : U64 = 18446744073709551616 := rfl
  have hlim : MEM_DRIVER_REGION + MEM_DRIVER_REGION_SIZE < U64 := by decide
  have hcurlt : s.driverRegion < U64 := by omega
  have husub : usub s.driverRegion (alignedSize size) = base := by
    rw [usub_exact (by omega) hcurlt]
    omega
  have hcount : pageCount base (alignedSize size) = alignedSize size / 4096 := by
    rw [pageCount, PAGE_SIZE, if_pos (by omega)]
  set s1 : MState := { s with driverRegion := usub s.driverRegion (alignedSize size) }
    with hs1
  have hs1cd : s1.cdir = s.cdir := rfl
  have hs1wf : WF s1 s.cdir :=
    ⟨hInv.nosize, hInv.bound, hInv.inj, hInv.nodir, hInv.zeroaddr, hInv.dlt,
      hInv.align, hInv.fresh⟩
  have hs1drv : s1.driverRegion = base := by
    rw [hs1]
    exact husub
  obtain ⟨s', hrun', hwf', hcd', hnb', hdm', hdr', hkh', hw', hpages', _⟩ :=
    freeRange_spec (alignedSize size / 4096) s1 base s.cdir hs1cd hs1wf hbase2
      (fun j hj => canonical_high
        (by
          have : (0xFFFF800000000000 : Nat) ≤ MEM_DRIVER_REGION := by decide
          omega)
        (by
          have := page_off_lt hj
          omega))
      (fun j hj => by
        have := page_off_lt hj
        omega)
      (fun j hj => hpok j hj)
  refine ⟨s', ?_, by rw [hdr', hs1drv], by rw [hdm'], by rw [hkh'],
    by rw [hw'], by rw [hcd'], hwf', hpages'⟩
  have hcount1 : pageCount s1.driverRegion (alignedSize size) =
      alignedSize size / 4096 := by
    rw [hs1drv]
    exact hcount
  have hrun2 : freeRange s1 s1.driverRegion
      (pageCount s1.driverRegion (alignedSize size)) = s' := by
    rw [hs1drv, hcount]
    exact hrun'
  rw [mem_unmapDriver]
  simp only []
  rw [if_pos husub.symm]
  exact hrun2

/-- The fresh demonstration state is well-formed. -/
lemma wf_freshState : WF freshState freshState.cdir := by
  refine ⟨fun t i => rfl, fun t i => by simp [freshState, zeroPage], ?_,
    fun t i h => absurd h (by simp [freshState, zeroPage]),
    fun t i _ => rfl, by simp [freshState], by simp [freshState],
    fun t i _ => rfl⟩
  intro t i t' i' h1 h2 h3
  exact absurd h1 (by simp [freshState, zeroPage])

/-- C6 (amended): for request sizes without 64-bit wraparound, the region
allocators align the size up to a page multiple; they stop fatally
(modelled as `none`) exactly when the cursor plus the aligned size
exceeds the region limit; otherwise they map every page of
`[cursor, cursor + aligned)` kernel-mode (DMA pages additionally
uncacheable), advance the cursor by the aligned size, and return the old
cursor. -/
theorem c6_region_alloc (s : MState) (size : Nat)
    (hInv : WF s s.cdir) (hwrap : size + 4095 < U64)
    (hdma1 : MEM_DMA_REGION ≤ s.dmaRegion) (hdma2 : s.dmaRegion % 4096 = 0)
    (hdma3 : s.dmaRegion + alignedSize size < U64)
    (hdrv1 : MEM_DRIVER_REGION ≤ s.driverRegion)
    (hdrv2 : s.driverRegion % 4096 = 0)
    (hdrv3 : s.driverRegion + alignedSize size < U64)
    (hbud : s.nextBlock + 4 * 4096 * (alignedSize size / 4096) ≤ 2 ^ 52) :
    alignedSize size = (size + 4095) / 4096 * 4096 ∧
    (MEM_DMA_REGION + MEM_DMA_REGION_SIZE < s.dmaRegion + alignedSize size →
      mem_allocateDMA s size = none) ∧
    (s.dmaRegion + alignedSize size ≤ MEM_DMA_REGION + MEM_DMA_REGION_SIZE →
      ∃ s', mem_allocateDMA s size = some (s.dmaRegion, s') ∧
        s'.dmaRegion = s.dmaRegion + alignedSize size ∧
        ∀ j, j < alignedSize size / 4096 →
          (mem_getPage s' none (s.dmaRegion + 4096 * j) MEM_DEFAULT).1 =
            some (ptTable s' s.cdir (s.dmaRegion + 4096 * j),
              MEM_PAGETBL_INDEX (alignOf (s.dmaRegion + 4096 * j))) ∧
          (ptCell s' s.cdir (s.dmaRegion + 4096 * j)).present = true ∧
          (ptCell s' s.cdir (s.dmaRegion + 4096 * j)).usermode = false ∧
          (ptCell s' s.cdir (s.dmaRegion + 4096 * j)).cache_disable = true) ∧
    (MEM_DRIVER_REGION + MEM_DRIVER_REGION_SIZE <
        s.driverRegion + alignedSize size →
      mem_mapDriver s size = none) ∧
    (s.driverRegion + alignedSize size ≤
        MEM_DRIVER_REGION + MEM_DRIVER_REGION_SIZE →
      ∃ s', mem_mapDriver s size = some (s.driverRegion, s') ∧
        s'.driverRegion = s.driverRegion + alignedSize size ∧
        ∀ j, j < alignedSize size / 4096 →
          (mem_getPage s' none (s.driverRegion + 4096 * j) MEM_DEFAULT).1 =
            some (ptTable s' s.cdir (s.driverRegion + 4096 * j),
              MEM_PAGETBL_INDEX (alignOf (s.driverRegion + 4096 * j))) ∧
          (ptCell s' s.cdir (s.driverRegion + 4096 * j)).present = true ∧
          (ptCell s' s.cdir (s.driverRegion + 4096 * j)).usermode = false ∧
          (ptCell s' s.cdir (s.driverRegion + 4096 * j)).cache_disable = false) := by
  refine ⟨alignedSize_eq hwrap, ?_, ?_, ?_, ?_⟩
  · intro hexceed
    rw [mem_allocateDMA]
    simp only []
    rw [if_pos]
    rw [Nat.mod_eq_of_lt hdma3]
    exact hexceed
  · intro hfit
    obtain ⟨s', hrun, hwf', hcd', hdma', hdrv', hkh', hw', hf', hnb1, hnb2,
      hpages⟩ := allocDMA_spec s size hInv hwrap hdma1 hdma2 hfit hbud
    refine ⟨s', hrun, hdma', ?_⟩
    intro j hj
    obtain ⟨hpok, hpp, hpu, hpc, hpr⟩ := hpages j hj
    have hca : MEM_IS_CANONICAL (s.dmaRegion + 4096 * j) = true :=
      canonical_high (by
          have : (0xFFFF800000000000 : Nat) ≤ MEM_DMA_REGION := by decide
          omega)
        (by have := page_off_lt hj; omega)
    have hgd : (none : Option Nat).getD s'.cdir = s.cdir := hcd'
    rw [getPage_of_path hca hgd hpok]
    exact ⟨rfl, hpp, hpu, hpc⟩
  · intro hexceed
    rw [mem_mapDriver]
    simp only []
    rw [if_pos]
    rw [Nat.mod_eq_of_lt hdrv3]
    exact hexceed
  · intro hfit
    obtain ⟨s', hrun, hwf', hcd', hdrv', hdma', hkh', hw', hf', hnb1, hnb2,
      hpages⟩ := allocDriver_spec s size hInv hwrap hdrv1 hdrv2 hfit hbud
    refine ⟨s', hrun, hdrv', ?_⟩
    intro j hj
    obtain ⟨hpok, hpp, hpu, hpc, hpr⟩ := hpages j hj
    have hca : MEM_IS_CANONICAL (s.driverRegion + 4096 * j) = true :=
      canonical_high (by
          have : (0xFFFF800000000000 : Nat) ≤ MEM_DRIVER_REGION := by decide
          omega)
        (by have := page_off_lt hj; omega)
    have hgd : (none : Option Nat).getD s'.cdir = s.cdir := hcd'
    rw [getPage_of_path hca hgd hpok]
    exact ⟨rfl, hpp, hpu, hpc⟩

/-- Witness for C6 (amended) on the fresh state with an 8 KiB request. -/
theorem c6_region_alloc_witness :
    WF freshState freshState.cdir ∧ 8192 + 4095 < U64 ∧
    (alignedSize 8192 = (8192 + 4095) / 4096 * 4096 ∧
    (MEM_DMA_REGION + MEM_DMA_REGION_SIZE <
        freshState.dmaRegion + alignedSize 8192 →
      mem_allocateDMA freshState 8192 = none) ∧
    (freshState.dmaRegion + alignedSize 8192 ≤
        MEM_DMA_REGION + MEM_DMA_REGION_SIZE →
      ∃ s', mem_allocateDMA freshState 8192 = some (freshState.dmaRegion, s') ∧
        s'.dmaRegion = freshState.dmaRegion + alignedSize 8192 ∧
        ∀ j, j < alignedSize 8192 / 4096 →
          (mem_getPage s' none (freshState.dmaRegion + 4096 * j) MEM_DEFAULT).1 =
            some (ptTable s' freshState.cdir (freshState.dmaRegion + 4096 * j),
              MEM_PAGETBL_INDEX (alignOf (freshState.dmaRegion + 4096 * j))) ∧
          (ptCell s' freshState.cdir (freshState.dmaRegion + 4096 * j)).present =
            true ∧
          (ptCell s' freshState.cdir (freshState.dmaRegion + 4096 * j)).usermode =
            false ∧
          (ptCell s' freshState.cdir
            (freshState.dmaRegion + 4096 * j)).cache_disable = true) ∧
    (MEM_DRIVER_REGION + MEM_DRIVER_REGION_SIZE <
        freshState.driverRegion + alignedSize 8192 →
      mem_mapDriver freshState 8192 = none) ∧
    (freshState.driverRegion + alignedSize 8192 ≤
        MEM_DRIVER_REGION + MEM_DRIVER_REGION_SIZE →
      ∃ s', mem_mapDriver freshState 8192 = some (freshState.driverRegion, s') ∧
        s'.driverRegion = freshState.driverRegion + alignedSize 8192 ∧
        ∀ j, j < alignedSize 8192 / 4096 →
          (mem_getPage s' none (freshState.driverRegion + 4096 * j)
              MEM_DEFAULT).1 =
            some (ptTable s' freshState.cdir
                (freshState.driverRegion + 4096 * j),
              MEM_PAGETBL_INDEX (alignOf (freshState.driverRegion + 4096 * j))) ∧
          (ptCell s' freshState.cdir
            (freshState.driverRegion + 4096 * j)).present = true ∧
          (ptCell s' freshState.cdir
            (freshState.driverRegion + 4096 * j)).usermode = false ∧
          (ptCell s' freshState.cdir
            (freshState.driverRegion + 4096 * j)).cache_disable = false)) :=
  ⟨wf_freshState, by decide,
    c6_region_alloc freshState 8192 wf_freshState (by decide) (by decide)
      (by decide) (by decide) (by decide) (by decide) (by decide) (by decide)⟩

/-- C4 (amended): region free is a LIFO peephole.  A matched
`alloc(size); free(returned base, size)` pair frees every page of the
interval (each leaf becomes non-present), restores the cursor, and logs
no warning; a free whose base is not `cursor - aligned size` logs a
warning and leaves the cursor and all page mappings unchanged — except
that `mem_freeDMA` returns silently, without a warning, when the base or
the size is zero. -/
theorem c4_region_lifo (s : MState) (size base : Nat)
    (hInv : WF s s.cdir) (hs0 : size ≠ 0) (hwrap : size + 4095 < U64)
    (hdma1 : MEM_DMA_REGION ≤ s.dmaRegion) (hdma2 : s.dmaRegion % 4096 = 0)
    (hdmafit : s.dmaRegion + alignedSize size ≤
      MEM_DMA_REGION + MEM_DMA_REGION_SIZE)
    (hdrv1 : MEM_DRIVER_REGION ≤ s.driverRegion)
    (hdrv2 : s.driverRegion % 4096 = 0)
    (hdrvfit : s.driverRegion + alignedSize size ≤
      MEM_DRIVER_REGION + MEM_DRIVER_REGION_SIZE)
    (hbud : s.nextBlock + 4 * 4096 * (alignedSize size / 4096) ≤ 2 ^ 52) :
    (∃ s1 s2, mem_allocateDMA s size = some (s.dmaRegion, s1) ∧
      mem_freeDMA s1 s.dmaRegion size = s2 ∧
      s2.dmaRegion = s.dmaRegion ∧ s2.warns = s.warns ∧
      (∀ j, j < alignedSize size / 4096 →
        (mem_getPage s2 none (s.dmaRegion + 4096 * j) MEM_DEFAULT).1 =
          some (ptTable s2 s.cdir (s.dmaRegion + 4096 * j),
            MEM_PAGETBL_INDEX (alignOf (s.dmaRegion + 4096 * j))) ∧
        (ptCell s2 s.cdir (s.dmaRegion + 4096 * j)).present = false)) ∧
    (base ≠ 0 → base ≠ usub s.dmaRegion (alignedSize size) →
      mem_freeDMA s base size = warn s) ∧
    (∃ s1 s2, mem_mapDriver s size = some (s.driverRegion, s1) ∧
      mem_unmapDriver s1 s.driverRegion size = s2 ∧
      s2.driverRegion = s.driverRegion ∧ s2.warns = s.warns ∧
      (∀ j, j < alignedSize size / 4096 →
        (mem_getPage s2 none (s.driverRegion + 4096 * j) MEM_DEFAULT).1 =
          some (ptTable s2 s.cdir (s.driverRegion + 4096 * j),
            MEM_PAGETBL_INDEX (alignOf (s.driverRegion + 4096 * j))) ∧
        (ptCell s2 s.cdir (s.driverRegion + 4096 * j)).present = false)) ∧
    (base ≠ usub s.driverRegion (alignedSize size) →
      mem_unmapDriver s base size = warn s) := by
  refine ⟨?_, ?_, ?_, ?_⟩
  · obtain ⟨s1, hrun1, hwf1, hcd1, hdma1', hdrv1', hkh1, hw1, hf1, hnb1a,
      hnb1b, hpages1⟩ := allocDMA_spec s size hInv hwrap hdma1 hdma2 hdmafit hbud
    have hwfs1 : WF s1 s1.cdir := by
      rw [hcd1]
      exact hwf1
    obtain ⟨s2, hrun2, hdma2', hdrv2', hkh2, hw2, hcd2, hwf2, hpages2⟩ :=
      freeDMA_spec s1 s.dmaRegion size hwfs1
        (by
          have h0 : (0 : Nat) < MEM_DMA_REGION := by decide
          omega)
        hs0 hdma1 hdma2 hdma1' (by rw [hdma1']; exact hdmafit)
        (fun j hj => by rw [hcd1]; exact (hpages1 j hj).1)
    refine ⟨s1, s2, hrun1, hrun2, hdma2', by rw [hw2, hw1], ?_⟩
    intro j hj
    obtain ⟨hpok2, hpp2⟩ := hpages2 j hj
    rw [hcd1] at hpok2 hpp2
    have hca : MEM_IS_CANONICAL (s.dmaRegion + 4096 * j) = true :=
      canonical_high (by
          have h0 : (0xFFFF800000000000 : Nat) ≤ MEM_DMA_REGION := by decide
          omega)
        (by
          have h1 := page_off_lt hj
          have h2 : MEM_DMA_REGION + MEM_DMA_REGION_SIZE < U64 := by decide
          omega)
    have hgd : (none : Option Nat).getD s2.cdir = s.cdir := by
      show s2.cdir = s.cdir
      rw [hcd2, hcd1]
    rw [getPage_of_path hca hgd hpok2]
    exact ⟨rfl, hpp2⟩
  · intro hb0 hmis
    rw [mem_freeDMA]
    rw [if_neg (by push_neg; exact ⟨hb0, hs0⟩)]
    simp only []
    rw [if_neg hmis]
  · obtain ⟨s1, hrun1, hwf1, hcd1, hdrv1', hdma1', hkh1, hw1, hf1, hnb1a,
      hnb1b, hpages1⟩ :=
      allocDriver_spec s size hInv hwrap hdrv1 hdrv2 hdrvfit hbud
    have hwfs1 : WF s1 s1.cdir := by
      rw [hcd1]
      exact hwf1
    obtain ⟨s2, hrun2, hdrv2', hdma2', hkh2, hw2, hcd2, hwf2, hpages2⟩ :=
      freeDriver_spec s1 s.driverRegion size hwfs1 hdrv1 hdrv2 hdrv1'
        (by rw [hdrv1']; exact hdrvfit)
        (fun j hj => by rw [hcd1]; exact (hpages1 j hj).1)
    refine ⟨s1, s2, hrun1, hrun2, hdrv2', by rw [hw2, hw1], ?_⟩
    intro j hj
    obtain ⟨hpok2, hpp2⟩ := hpages2 j hj
    rw [hcd1] at hpok2 hpp2
    have hca : MEM_IS_CANONICAL (s.driverRegion + 4096 * j) = true :=
      canonical_high (by
          have h0 : (0xFFFF800000000000 : Nat) ≤ MEM_DRIVER_REGION := by decide
          omega)
        (by
          have h1 := page_off_lt hj
          have h2 : MEM_DRIVER_REGION + MEM_DRIVER_REGION_SIZE < U64 := by decide
          omega)
    have hgd : (none : Option Nat).getD s2.cdir = s.cdir := by
      show s2.cdir = s.cdir
      rw [hcd2, hcd1]
    rw [getPage_of_path hca hgd hpok2]
    exact ⟨rfl, hpp2⟩
  · intro hmis
    rw [mem_unmapDriver]
    simp only []
    rw [if_neg hmis]

/-- Witness for C4 (amended) on the fresh state: an 8 KiB allocation
freed LIFO, and a mismatched base 5. -/
theorem c4_region_lifo_witness :
    WF freshState freshState.cdir ∧ (8192 : Nat) ≠ 0 ∧
    ((∃ s1 s2, mem_allocateDMA freshState 8192 =
        some (freshState.dmaRegion, s1) ∧
      mem_freeDMA s1 freshState.dmaRegion 8192 = s2 ∧
      s2.dmaRegion = freshState.dmaRegion ∧ s2.warns = freshState.warns ∧
      (∀ j, j < alignedSize 8192 / 4096 →
        (mem_getPage s2 none (freshState.dmaRegion + 4096 * j) MEM_DEFAULT).1 =
          some (ptTable s2 freshState.cdir (freshState.dmaRegion + 4096 * j),
            MEM_PAGETBL_INDEX (alignOf (freshState.dmaRegion + 4096 * j))) ∧
        (ptCell s2 freshState.cdir
          (freshState.dmaRegion + 4096 * j)).present = false)) ∧
    ((5 : Nat) ≠ 0 → (5 : Nat) ≠ usub freshState.dmaRegion (alignedSize 8192) →
      mem_freeDMA freshState 5 8192 = warn freshState) ∧
    (∃ s1 s2, mem_mapDriver freshState 8192 =
        some (freshState.driverRegion, s1) ∧
      mem_unmapDriver s1 freshState.driverRegion 8192 = s2 ∧
      s2.driverRegion = freshState.driverRegion ∧ s2.warns = freshState.warns ∧
      (∀ j, j < alignedSize 8192 / 4096 →
        (mem_getPage s2 none (freshState.driverRegion + 4096 * j)
            MEM_DEFAULT).1 =
          some (ptTable s2 freshState.cdir
              (freshState.driverRegion + 4096 * j),
            MEM_PAGETBL_INDEX (alignOf (freshState.driverRegion + 4096 * j))) ∧
        (ptCell s2 freshState.cdir
          (freshState.driverRegion + 4096 * j)).present = false)) ∧
    ((5 : Nat) ≠ usub freshState.driverRegion (alignedSize 8192) →
      mem_unmapDriver freshState 5 8192 = warn freshState)) :=
  ⟨wf_freshState, by decide,
    c4_region_lifo freshState 8192 5 wf_freshState (by decide) (by decide)
      (by decide) (by decide) (by decide) (by decide) (by decide) (by decide)
      (by decide)⟩
